import Mathlib

/-!
# Shell parser of kics (`pkg/parser/shell/parser.go`)

A shallow embedding of the command extractor (`getStmtInfo`, `getWordValue`,
`getFullCommand`), of the grouping tracker (`getStmt`) and of the tree walk of
`Parse`, with the properties of the specification proved over it. The
report builder of `pkg/report/model/sonarqube.go` follows in namespace
`SonarQube`.

Conventions of the embedding:
* a Go `string` is a Lean `String` (a sequence of Unicode code points; the
  text the printer returns is taken to be valid UTF-8), and the functions of
  package `strings` work on its list of characters;
* `int`/`uint` line numbers are `Nat` (a line number never reaches `2^63`);
* the syntax tree and the printer belong to the external library
  `mvdan.cc/sh/v3/syntax`: the tree is an inductive type carrying what the
  code reads from it and the printer is a parameter;
* `map[string][]Command` is an association list with the read and write
  operations of a Go map (a missing key reads as the empty slice).
-/

namespace Shell

/-! ## Package `strings` and `unicode` -/

/-- Go `unicode.IsSpace`: the Latin-1 spaces and the code points with the
White_Space property. -/
def IsSpace (r : Char) : Bool :=
  if r.toNat ≤ 0xFF then
    r.toNat = 0x09 || r.toNat = 0x0A || r.toNat = 0x0B || r.toNat = 0x0C ||
      r.toNat = 0x20 || r.toNat = 0x0D || r.toNat = 0x85 || r.toNat = 0xA0
  else
    r.toNat = 0x1680 || (0x2000 ≤ r.toNat && r.toNat ≤ 0x200A) ||
      r.toNat = 0x2028 || r.toNat = 0x2029 || r.toNat = 0x202F ||
      r.toNat = 0x205F || r.toNat = 0x3000

/-- Go `strings.TrimLeftFunc`. -/
def TrimLeftFunc (s : String) (f : Char → Bool) : String :=
  ⟨s.data.dropWhile f⟩

/-- Go `strings.TrimRightFunc`. -/
def TrimRightFunc (s : String) (f : Char → Bool) : String :=
  ⟨s.data.rdropWhile f⟩

/-- Go `strings.TrimFunc`. -/
def TrimFunc (s : String) (f : Char → Bool) : String :=
  TrimRightFunc (TrimLeftFunc s f) f

/-- Go `strings.TrimSpace`: both ends are trimmed of `unicode.IsSpace`
characters. -/
def TrimSpace (s : String) : String :=
  TrimFunc s IsSpace

/-- Go `strings.HasPrefix`: `len(s) >= len(p) && s[:len(p)] == p`. -/
def HasPrefix (s p : String) : Bool :=
  decide (p.data.length ≤ s.data.length) && decide (s.data.take p.data.length = p.data)

/-- Go `strings.TrimPrefix`. -/
def TrimPrefix (s p : String) : String :=
  if HasPrefix s p then ⟨s.data.drop p.data.length⟩ else s

/-- Replacement of every non-overlapping occurrence of a non-empty `old`,
leftmost first. `skip` counts the characters of a matched occurrence that are
still to be passed over. -/
def replaceFrom (old new : List Char) : Nat → List Char → List Char
  | _, [] => []
  | skip + 1, _ :: cs => replaceFrom old new skip cs
  | 0, c :: cs =>
    if old.isPrefixOf (c :: cs) then new ++ replaceFrom old new (old.length - 1) cs
    else c :: replaceFrom old new 0 cs

/-- Go `strings.Replace(s, old, new, -1)`: all occurrences are replaced; an
empty `old` matches before every character and at the end. -/
def ReplaceAll (s old new : String) : String :=
  if old = new then s
  else if old.data = [] then ⟨new.data ++ s.data.flatMap (fun c => c :: new.data)⟩
  else ⟨replaceFrom old.data new.data 0 s.data⟩

/-! ## The syntax tree provider -/

/-- Position of a node in the source (`syntax.Pos`); only `Line()` is read by
the parser. `Line()` starts at 1; the library reports line 0 for a position
past the last line number that a `Pos` can hold. -/
structure Pos where
  Line : Nat
  Col : Nat
deriving DecidableEq, Repr

/-- Word token (`syntax.Word`): its source text and the positions returned by
`Pos()` and `End()`. -/
structure Word where
  Text : String
  Pos : Shell.Pos
  End : Shell.Pos
deriving DecidableEq, Repr

/-- The printer of the syntax library, a parameter of the embedding: the text
that `printer.Print` leaves in the buffer for a word and for a call expression
made of an argument list, whether or not `Print` reports an error. -/
structure Printer where
  printWord : Word → String
  printCall : List Word → String

/-- Command of a statement (`syntax.Command`): a call expression with its
arguments, or any other kind of command (including none). -/
inductive StmtCmd where
  | CallExpr (Args : List Word)
  | Other
deriving DecidableEq, Repr

/-- Statement node (`syntax.Stmt`). -/
structure Stmt where
  Cmd : StmtCmd
deriving DecidableEq, Repr

/-! ## Data model of the parser -/

/-- Command is the struct for each Buildah command. -/
structure Command where
  Cmd : String
  Original : String
  Value : String
  StartLine : Nat
  EndLine : Nat
deriving DecidableEq, Repr

/-- FromValue is the struct for each from. -/
structure FromValue where
  Value : String
  Line : Nat
deriving DecidableEq, Repr

/-- Go `map[string][]Command`. -/
abbrev CommandMap := List (String × List Command)

/-- Map read `m[k]`: the empty slice for a missing key. -/
def CommandMap.get : CommandMap → String → List Command
  | [], _ => []
  | (k', v) :: rest, k => if k' = k then v else CommandMap.get rest k

/-- Map write `m[k] = v`. -/
def CommandMap.set : CommandMap → String → List Command → CommandMap
  | [], k, v => [(k, v)]
  | (k', v') :: rest, k, v =>
    if k' = k then (k, v) :: rest else (k', v') :: CommandMap.set rest k v

/-- Keys of a map. -/
def CommandMap.keys (m : CommandMap) : List String :=
  m.map Prod.fst

/-- Info has the relevant information to Buildah parser. -/
structure Info where
  IgnoreLines : List Nat
  From : CommandMap
  FromValues : List FromValue
  IgnoreBlockLines : List Nat
deriving DecidableEq, Repr

/-- The `Info` that `Parse` starts from: `var info Info` with
`info.From = map[string][]Command{}`. -/
def Info.empty : Info :=
  { IgnoreLines := [], From := [], FromValues := [], IgnoreBlockLines := [] }

/-! ## The command extractor -/

/-- Source `getWordValue`: the printed word (an error of the printer is only
logged). -/
def getWordValue (pr : Printer) (wd : Word) : String :=
  pr.printWord wd

/-- Source `getFullCommand`: the printed call expression with newlines,
carriage returns, tabs and backslashes replaced by nothing. -/
def getFullCommand (pr : Printer) (args : List Word) : String :=
  let command := pr.printCall args
  let command := ReplaceAll command "\n" ""
  let command := ReplaceAll command "\r" ""
  let command := ReplaceAll command "\t" ""
  let command := ReplaceAll command "\\" ""
  command

/-- The zero value of `Command`. -/
def Command.zero : Command :=
  { Cmd := "", Original := "", Value := "", StartLine := 0, EndLine := 0 }

/-- Source `Info.getStmtInfo`. -/
def getStmtInfo (pr : Printer) (_stmt : Stmt) (args : List Word) : Command :=
  let minimumArgs := 2
  if h : args.length > minimumArgs then
    let cmd := TrimSpace (getWordValue pr (args.get ⟨1, by omega⟩))
    let fullCmd := TrimSpace (getFullCommand pr args)
    let value := TrimPrefix fullCmd cmd
    let start := (args.get ⟨0, by omega⟩).Pos.Line
    let endLine := (args.get ⟨args.length - 1, by omega⟩).End.Line
    { Cmd := cmd, Original := fullCmd, StartLine := start, EndLine := endLine,
      Value := TrimSpace value }
  else Command.zero

/-! ## The grouping tracker -/

/-- Source `Info.getStmt`: a statement whose command is a call expression
appends its `FromValue` and, when its `Cmd` is not empty, is filed in `From`
under the `Value` of the last `FromValues` entry. -/
def getStmt (pr : Printer) (i : Info) (stmt : Stmt) : Info :=
  match stmt.Cmd with
  | .CallExpr args =>
    let stCommand := getStmtInfo pr stmt args
    let fromValue : FromValue := { Value := stCommand.Value, Line := stCommand.StartLine }
    let i := { i with FromValues := i.FromValues ++ [fromValue] }
    if stCommand.Cmd ≠ "" then
      if h : i.FromValues.length ≠ 0 then
        let v := (i.FromValues.get ⟨i.FromValues.length - 1, by omega⟩).Value
        { i with From := i.From.set v (i.From.get v ++ [stCommand]) }
      else i
    else i
  | .Other => i

/-! ## The tree walk of `Parse` -/

/-- Node of the syntax tree as `syntax.Walk` presents it to its callback: a
statement, a comment with the position of its hash, or a node of another
kind, with the child nodes that the walk descends into. An if clause
(`syntax.IfClause`) has the nodes of its condition, of its then-part and of
its else clause (no node or one), which the walk descends into in that order,
and the comments of its field `Last` (the comments before its `else`, `elif`
or `fi`), which the walk never presents to the callback. -/
inductive Node where
  | Stmt (stmt : Shell.Stmt) (children : List Node)
  | Comment (Hash : Pos)
  | Other (children : List Node)
  | IfClause (Cond Then Else : List Node) (Last : List Pos)

mutual
/-- Library `syntax.Walk`: the callback is run on the node first and, when it
returns true, the children are walked in order; of an if clause the
condition, the then-part and the else clause are walked and the comments of
the field `Last` are not. The closing call of the callback on the nil node is
left out: the callback of `Parse` has no case for it. -/
def Walk {σ : Type} (f : Node → σ → σ × Bool) : Node → σ → σ
  | .Stmt stmt children, s =>
    let r := f (.Stmt stmt children) s
    if r.2 then walkList f children r.1 else r.1
  | .Comment hash, s => (f (.Comment hash) s).1
  | .Other children, s =>
    let r := f (.Other children) s
    if r.2 then walkList f children r.1 else r.1
  | .IfClause cond thn els last, s =>
    let r := f (.IfClause cond thn els last) s
    if r.2 then walkList f els (walkList f thn (walkList f cond r.1)) else r.1
/-- Walk of a list of sibling nodes, left to right. -/
def walkList {σ : Type} (f : Node → σ → σ × Bool) : List Node → σ → σ
  | [], s => s
  | n :: ns, s => walkList f ns (Walk f n s)
end

/-- The variables the callback of `Parse` writes to: `info` and
`ignoreLines`. -/
structure WalkState where
  info : Info
  ignoreLines : List Nat
deriving DecidableEq, Repr

/-- The callback that `Parse` hands to `syntax.Walk`; it always returns
true. -/
def parseVisit (pr : Printer) (node : Node) (s : WalkState) : WalkState × Bool :=
  match node with
  | .Stmt x _ => ({ s with info := getStmt pr s.info x }, true)
  | .Comment x => ({ s with ignoreLines := s.ignoreLines ++ [x.Line] }, true)
  | .Other _ => (s, true)
  | .IfClause _ _ _ _ => (s, true)

/-- The walk of `Parse` over a parsed file, from the empty `Info` and the
empty `ignoreLines`. -/
def parseWalk (pr : Printer) (f : Node) : WalkState :=
  Walk (parseVisit pr) f { info := Info.empty, ignoreLines := [] }

/-! ## The document of `Parse` -/

/-- Resource separates the list of commands by file; its field is written
under the JSON name `command`. -/
structure Resource where
  CommandList : CommandMap
deriving DecidableEq, Repr

/-- Modelled from the spec: value of the generic key/value document
(`model.Document`, declared outside the files at hand), as `json.Unmarshal`
builds it: a string, a number, a sequence or a mapping from keys to values. -/
inductive DocValue where
  | str (s : String)
  | num (n : Nat)
  | arr (items : List DocValue)
  | obj (fields : List (String × DocValue))

/-- Modelled from the spec: the generic document `model.Document`, a mapping
from keys to values. -/
abbrev Document := List (String × DocValue)

/-- Rendering of a `Command` by `json.Marshal`: the fields in declaration
order under their JSON names, `StartLine` under its tag `_kics_line`. -/
def Command.toDoc (c : Command) : DocValue :=
  .obj [("Cmd", .str c.Cmd), ("Original", .str c.Original), ("Value", .str c.Value),
    ("_kics_line", .num c.StartLine), ("EndLine", .num c.EndLine)]

/-- Result of `json.Marshal(resource)` followed by `json.Unmarshal(j, &doc)`:
the document with the one key `command`, which maps every key of the map to
the sequence of its rendered records. Neither call fails on a `Resource`. -/
def Resource.toDocument (r : Resource) : Document :=
  [("command", .obj (r.CommandList.map (fun kv => (kv.1, .arr (kv.2.map Command.toDoc)))))]

/-- The three results of `Parse`: the documents (`none` for the nil slice),
the ignore lines and the error. -/
structure ParseResult (ε : Type) where
  documents : Option (List Document)
  lines : List Nat
  err : Option ε

/-- Source `Parser.Parse`. The parser of the syntax library is the parameter
`parseFile`; the file name is not used; the printing of the documents to the
standard output is left out. -/
def Parse {ε : Type} (parseFile : List UInt8 → Except ε Node) (pr : Printer)
    (fileContent : List UInt8) : ParseResult ε :=
  match parseFile fileContent with
  | .error err => { documents := none, lines := [], err := some err }
  | .ok f =>
    let s := Walk (parseVisit pr) f { info := Info.empty, ignoreLines := [] }
    let resource : Resource := { CommandList := s.info.From }
    let doc := resource.toDocument
    { documents := some ([] ++ [doc]), lines := s.ignoreLines, err := none }

/-! ## Notions of the specification -/

/-- The characters that `getFullCommand` removes: newline, carriage return,
tab and backslash. -/
def isStripped (c : Char) : Bool :=
  c = '\n' || c = '\r' || c = '\t' || c = '\\'

/-- A text has no leading and no trailing whitespace. -/
def Trimmed (l : List Char) : Prop :=
  (∀ c, l.head? = some c → IsSpace c = false) ∧
    (∀ c, l.getLast? = some c → IsSpace c = false)

mutual
/-- The statement nodes of a tree in the order the walk visits them
(pre-order). -/
def stmtNodes : Node → List Stmt
  | .Stmt stmt children => stmt :: stmtNodesList children
  | .Comment _ => []
  | .Other children => stmtNodesList children
  | .IfClause cond thn els _ => stmtNodesList cond ++ (stmtNodesList thn ++ stmtNodesList els)
/-- The statement nodes of a list of sibling trees. -/
def stmtNodesList : List Node → List Stmt
  | [] => []
  | n :: ns => stmtNodes n ++ stmtNodesList ns
end

mutual
/-- The positions of the comment nodes of a tree that the walk presents to
the callback, in the order the walk visits them (pre-order). -/
def commentNodes : Node → List Pos
  | .Stmt _ children => commentNodesList children
  | .Comment hash => [hash]
  | .Other children => commentNodesList children
  | .IfClause cond thn els _ =>
    commentNodesList cond ++ (commentNodesList thn ++ commentNodesList els)
/-- The positions of the presented comment nodes of a list of sibling
trees. -/
def commentNodesList : List Node → List Pos
  | [] => []
  | n :: ns => commentNodes n ++ commentNodesList ns
end

mutual
/-- The positions of all the comment nodes that a tree holds, in source
order: the comments of the field `Last` of an if clause stand after its
then-part and before its else clause. -/
def treeComments : Node → List Pos
  | .Stmt _ children => treeCommentsList children
  | .Comment hash => [hash]
  | .Other children => treeCommentsList children
  | .IfClause cond thn els last =>
    treeCommentsList cond ++ (treeCommentsList thn ++ (last ++ treeCommentsList els))
/-- The positions of all the comment nodes of a list of sibling trees. -/
def treeCommentsList : List Node → List Pos
  | [] => []
  | n :: ns => treeComments n ++ treeCommentsList ns
end

mutual
/-- The positions of the comment nodes of a tree that the walk passes over:
the comments of the field `Last` of its if clauses. -/
def lastComments : Node → List Pos
  | .Stmt _ children => lastCommentsList children
  | .Comment _ => []
  | .Other children => lastCommentsList children
  | .IfClause cond thn els last =>
    lastCommentsList cond ++ (lastCommentsList thn ++ (last ++ lastCommentsList els))
/-- The passed-over comment nodes of a list of sibling trees. -/
def lastCommentsList : List Node → List Pos
  | [] => []
  | n :: ns => lastComments n ++ lastCommentsList ns
end

/-- A statement's command is a call expression. -/
def Stmt.isCall (stmt : Stmt) : Bool :=
  match stmt.Cmd with
  | .CallExpr _ => true
  | .Other => false

/-- The `FromValue` that `getStmt` logs for a call-expression statement. -/
def Stmt.fromValues (pr : Printer) (stmt : Stmt) : List FromValue :=
  match stmt.Cmd with
  | .CallExpr args =>
    [{ Value := (getStmtInfo pr stmt args).Value, Line := (getStmtInfo pr stmt args).StartLine }]
  | .Other => []

/-- The records a statement contributes to the groups: its record when its
command is a call expression. -/
def Stmt.records (pr : Printer) (stmt : Stmt) : List Command :=
  match stmt.Cmd with
  | .CallExpr args => [getStmtInfo pr stmt args]
  | .Other => []

/-- The statement whose command is the call expression of an argument list. -/
def callStmt (args : List Word) : Stmt :=
  { Cmd := .CallExpr args }

/-! ## Example inputs -/

/-- A word on one line. -/
def word (text : String) (line : Nat) : Word :=
  { Text := text, Pos := { Line := line, Col := 1 }, End := { Line := line, Col := 1 } }

/-- Text of an argument list: the words separated by a blank, or by a
backslash, a newline and a tab where the next word starts on a later line. -/
def printArgs : List Word → String
  | [] => ""
  | [w] => w.Text
  | w :: w2 :: ws =>
    w.Text ++ (if w.End.Line < w2.Pos.Line then " \\\n\t" else " ") ++ printArgs (w2 :: ws)

/-- A printer that renders a word as its text and a call as `printArgs`. -/
def textPrinter : Printer :=
  { printWord := fun w => w.Text, printCall := printArgs }

/-- Arguments of `buildah run ctr1 echo hi`, on line 1. -/
def buildahRun : List Word :=
  [word "buildah" 1, word "run" 1, word "ctr1" 1, word "echo" 1, word "hi" 1]

/-- Arguments of `buildah run ctr1 echo hi` written on two lines with a line
continuation after `ctr1`. -/
def buildahRunTwoLines : List Word :=
  [word "buildah" 1, word "run" 1, word "ctr1" 1, word "echo" 2, word "hi" 2]

/-- Arguments of `buildah`, a no-break space (U+00A0) and `ctr1`, on line 1:
the shell does not split words at U+00A0, so the second token is that one
character. -/
def noBreakSpaceToken : List Word :=
  [word "buildah" 1, word "\u00a0" 1, word "ctr1" 1]

/-- Arguments of `buildah run ctr1` on a line past the last line number that
a position can hold: `Line()` of every position is 0. -/
def pastLastLine : List Word :=
  [word "buildah" 0, word "run" 0, word "ctr1" 0]

/-- Arguments of `buildah run` on line 1 and, after line continuations,
`ctr1` on a line past the last line number that a position can hold:
`Line()` of the positions of `ctr1` is 0. -/
def acrossLastLine : List Word :=
  [word "buildah" 1, word "run" 1, word "ctr1" 0]

/-- Arguments of `echo hi`, on line 1. -/
def echoHi : List Word :=
  [word "echo" 1, word "hi" 1]

/-- The statements `buildah run ctr1 echo hi`, `echo hi` and
`buildah run ctr1 echo hi` on two lines. -/
def threeStmts : List Stmt :=
  [callStmt buildahRun, callStmt echoHi, callStmt buildahRunTwoLines]

/-- Tree of `( buildah run ctr1 echo hi )`: the file, a statement whose command
is a subshell, and inside it the statement of the call. -/
def subshellTree : Node :=
  .Other [.Stmt { Cmd := .Other } [.Other [.Stmt (callStmt buildahRun) [.Other []]]]]

/-- Tree of a file with the statement `buildah run ctr1 echo hi` followed by
a comment on line 1, and comments on lines 2 and 3. -/
def commentTree : Node :=
  .Other [.Stmt (callStmt buildahRun) [.Other [], .Comment { Line := 1, Col := 26 }],
    .Comment { Line := 2, Col := 1 },
    .Comment { Line := 3, Col := 1 }]

/-- Tree of the file

    if true; then
      buildah run ctr1 true
    # before else
    else
      echo hi
    # before fi
    fi
    # after

with the comment of line 3 in the field `Last` of the if clause, the comment
of line 6 in the field `Last` of its else clause and the comment of line 8 as
the last comment of the file. -/
def ifElseTree : Node :=
  .Other [
    .Stmt { Cmd := .Other } [
      .IfClause
        [.Stmt (callStmt [word "true" 1]) [.Other []]]
        [.Stmt (callStmt [word "buildah" 2, word "run" 2, word "ctr1" 2, word "true" 2])
          [.Other []]]
        [.IfClause [] [.Stmt (callStmt [word "echo" 5, word "hi" 5]) [.Other []]] []
          [{ Line := 6, Col := 1 }]]
        [{ Line := 3, Col := 1 }]],
    .Comment { Line := 8, Col := 1 }]

/-- Tree of the empty file. -/
def emptyFile : Node :=
  .Other []

/-- A parser that returns the same tree for every input. -/
def parseTo (f : Node) : List UInt8 → Except String Node :=
  fun _ => .ok f

/-- A parser that rejects every input. -/
def parseFails : List UInt8 → Except String Node :=
  fun _ => .error "reached EOF without closing quote"

end Shell

/-!
# SonarQube report builder of kics (`pkg/report/model/sonarqube.go`)

Conventions of the embedding: a pointer to a struct that may be nil is an
`Option`; a slice is a `List`; an index or slice expression out of range is a
run-time panic, so the functions that index `Files` return `Except Panic`; Go
`int` line numbers are `Int`.
-/

namespace SonarQube

/-! ## Data model -/

/-- Modelled from the spec: `model.VulnerableFile` is declared outside the
files at hand; the fields are those the report builder reads. -/
structure VulnerableFile where
  FileName : String
  Line : Int
  ReferenceFileName : String
  ReferenceLine : Int
deriving DecidableEq, Repr

/-- Modelled from the spec: `model.QueryResult` is declared outside the files
at hand; the fields are those the report builder reads (`Severity` is a string
type). -/
structure QueryResult where
  QueryID : String
  Severity : String
  Category : String
  Description : String
  CISDescriptionID : String
  Files : List VulnerableFile
deriving DecidableEq, Repr

/-- Modelled from the spec: `model.Summary` is declared outside the files at
hand; the builder reads its queries. -/
structure Summary where
  Queries : List QueryResult
deriving DecidableEq, Repr

/-- Range is the range for the vulnerability in the SonarQube Report. -/
structure Range where
  StartLine : Int
deriving DecidableEq, Repr

/-- Location is the location for the vulnerability in the SonarQube Report. -/
structure Location where
  Message : String
  FilePath : String
  TextRange : Option Range
deriving DecidableEq, Repr

/-- LocationWithRef is the location for the vulnerability in the SonarQube
Report with the reference information. -/
structure LocationWithRef where
  Message : String
  FilePath : String
  TextRange : Option Range
  ReferenceFilePath : String
  ReferenceTextRange : Option Range
deriving DecidableEq, Repr

/-- Issue is a single issue for SonarQube Report (the Go field `Type` is
`IssueType` here). -/
structure Issue where
  EngineID : String
  RuleID : String
  Severity : String
  IssueType : String
  PrimaryLocation : Option Location
  SecondaryLocations : List LocationWithRef
deriving DecidableEq, Repr

/-- SonarQubeReport is a list of issues for SonarQube Report. -/
structure SonarQubeReport where
  Issues : List Issue
deriving DecidableEq, Repr

/-- SonarQubeReportBuilder is the builder for the SonarQubeReport struct. -/
structure SonarQubeReportBuilder where
  version : String
  report : SonarQubeReport
deriving DecidableEq, Repr

/-- Run-time panic of an index or slice expression. -/
inductive Panic where
  | indexOutOfRange (index length : Nat)
  | sliceBoundsOutOfRange (low length : Nat)
deriving DecidableEq, Repr

/-! ## Tables -/

/-- Source `severitySonarQubeEquivalence`: maps the severity of the KICS to
the SonarQube equivalent. -/
def severitySonarQubeEquivalence : List (String × String) :=
  [("INFO", "INFO"),
   ("LOW", "MINOR"),
   ("MEDIUM", "MAJOR"),
   ("HIGH", "CRITICAL")]

/-- Source `categorySonarQubeEquivalence`: maps the category to the SonarQube
equivalent. -/
def categorySonarQubeEquivalence : List (String × String) :=
  [("Access Control", "VULNERABILITY"),
   ("Availability", "VULNERABILITY"),
   ("Backup", "VULNERABILITY"),
   ("Best Practices", "CODE_SMELL"),
   ("Build Process", "VULNERABILITY"),
   ("Encryption", "VULNERABILITY"),
   ("Insecure Configurations", "CODE_SMELL"),
   ("Insecure Defaults", "CODE_SMELL"),
   ("Networking and Firewall", "VULNERABILITY"),
   ("Observability", "VULNERABILITY"),
   ("Resource Management", "VULNERABILITY"),
   ("Secret Management", "VULNERABILITY"),
   ("Supply-Chain", "VULNERABILITY"),
   ("Structure and Semantics", "CODE_SMELL")]

/-- Read `m[k]` of a Go `map[string]string`: the empty string for a missing
key. -/
def mapGet : List (String × String) → String → String
  | [], _ => ""
  | (k2, v) :: rest, k => if k2 = k then v else mapGet rest k

/-! ## The builder -/

/-- Index expression `files[i]`. -/
def fileAt (files : List VulnerableFile) (i : Nat) : Except Panic VulnerableFile :=
  match files[i]? with
  | some f => .ok f
  | none => .error (.indexOutOfRange i files.length)

/-- Slice expression `files[low:]`. -/
def filesFrom (files : List VulnerableFile) (low : Nat) : Except Panic (List VulnerableFile) :=
  if low ≤ files.length then .ok (files.drop low)
  else .error (.sliceBoundsOutOfRange low files.length)

/-- Source `NewSonarQubeRepory`; `constants.Version` is the parameter
`Version`. -/
def NewSonarQubeRepory (Version : String) : SonarQubeReportBuilder :=
  { version := "KICS " ++ Version, report := { Issues := [] } }

/-- Source `buildLocation`. -/
def buildLocation (index : Nat) (query : QueryResult) : Except Panic Location := do
  let message := if query.CISDescriptionID ≠ "" then query.CISDescriptionID
    else query.Description
  let file ← fileAt query.Files index
  pure { Message := message, FilePath := file.FileName,
         TextRange := some { StartLine := file.Line } }

/-- Source `buildLocationWithRef`. -/
def buildLocationWithRef (index : Nat) (query : QueryResult) :
    Except Panic LocationWithRef := do
  let message := if query.CISDescriptionID ≠ "" then query.CISDescriptionID
    else query.Description
  let file ← fileAt query.Files index
  let location : LocationWithRef :=
    { Message := message, FilePath := file.FileName,
      TextRange := some { StartLine := file.Line },
      ReferenceFilePath := "", ReferenceTextRange := none }
  if file.ReferenceLine ≠ -1 then
    pure { location with
      ReferenceFilePath := file.ReferenceFileName,
      ReferenceTextRange := some { StartLine := file.ReferenceLine } }
  else pure location

/-- The loop `for i := range query.Files[1:]` of `buildSecondaryLocation`:
one round per element of the slice, `i` counting from 0. -/
def buildSecondaryLoop (query : QueryResult) :
    List VulnerableFile → Nat → List LocationWithRef → Except Panic (List LocationWithRef)
  | [], _, locations => .ok locations
  | _ :: rest, i, locations => do
    let location ← buildLocationWithRef (i + 1) query
    buildSecondaryLoop query rest (i + 1) (locations ++ [location])

/-- Source `buildSecondaryLocation`. -/
def buildSecondaryLocation (query : QueryResult) : Except Panic (List LocationWithRef) := do
  let sliced ← filesFrom query.Files 1
  buildSecondaryLoop query sliced 0 []

/-- Source `buildIssue`: the fields of the issue are evaluated in order, then
the issue is appended to the report. -/
def buildIssue (s : SonarQubeReportBuilder) (query : QueryResult) :
    Except Panic SonarQubeReportBuilder := do
  let primary ← buildLocation 0 query
  let secondary ← buildSecondaryLocation query
  let issue : Issue :=
    { EngineID := s.version,
      RuleID := query.QueryID,
      Severity := mapGet severitySonarQubeEquivalence query.Severity,
      IssueType := mapGet categorySonarQubeEquivalence query.Category,
      PrimaryLocation := some primary,
      SecondaryLocations := secondary }
  pure { s with report := { Issues := s.report.Issues ++ [issue] } }

/-- The loop `for i := range summary.Queries` of `BuildReport`. -/
def buildIssues : List QueryResult → SonarQubeReportBuilder →
    Except Panic SonarQubeReportBuilder
  | [], s => .ok s
  | query :: rest, s => do
    let s ← buildIssue s query
    buildIssues rest s

/-- Source `BuildReport`. -/
def BuildReport (s : SonarQubeReportBuilder) (summary : Summary) :
    Except Panic SonarQubeReport := do
  let s ← buildIssues summary.Queries s
  pure s.report

/-! ## Notions of the properties -/

/-- The message of every location of a query: `CISDescriptionID` when it is
not empty, `Description` otherwise. -/
def messageOf (query : QueryResult) : String :=
  if query.CISDescriptionID ≠ "" then query.CISDescriptionID else query.Description

/-- The location that describes a file of a query. -/
def locationOf (query : QueryResult) (file : VulnerableFile) : Location :=
  { Message := messageOf query, FilePath := file.FileName,
    TextRange := some { StartLine := file.Line } }

/-- The secondary location that describes a file of a query. -/
def locationWithRefOf (query : QueryResult) (file : VulnerableFile) : LocationWithRef :=
  { Message := messageOf query, FilePath := file.FileName,
    TextRange := some { StartLine := file.Line },
    ReferenceFilePath := if file.ReferenceLine ≠ -1 then file.ReferenceFileName else "",
    ReferenceTextRange :=
      if file.ReferenceLine ≠ -1 then some { StartLine := file.ReferenceLine } else none }

/-- The issue of a query: the first file gives the primary location, the
other files the secondary locations. -/
def issueOf (version : String) (query : QueryResult) : Issue :=
  { EngineID := version,
    RuleID := query.QueryID,
    Severity := mapGet severitySonarQubeEquivalence query.Severity,
    IssueType := mapGet categorySonarQubeEquivalence query.Category,
    PrimaryLocation := query.Files.head?.map (locationOf query),
    SecondaryLocations := query.Files.tail.map (locationWithRefOf query) }

/-! ## Example inputs -/

/-- A query of high severity found in three files, the second with a
reference. -/
def exampleQuery : QueryResult :=
  { QueryID := "q-1", Severity := "HIGH", Category := "Encryption",
    Description := "disk is not encrypted", CISDescriptionID := "",
    Files := [
      { FileName := "a.tf", Line := 3, ReferenceFileName := "", ReferenceLine := -1 },
      { FileName := "b.tf", Line := 7, ReferenceFileName := "mod.tf", ReferenceLine := 12 },
      { FileName := "c.tf", Line := 9, ReferenceFileName := "", ReferenceLine := -1 }] }

/-- A query of an unlisted severity and category found in one file. -/
def unlistedQuery : QueryResult :=
  { QueryID := "q-2", Severity := "TRACE", Category := "Other",
    Description := "d", CISDescriptionID := "CIS-1",
    Files := [{ FileName := "x.sh", Line := 1, ReferenceFileName := "", ReferenceLine := -1 }] }

/-- A query with no file. -/
def queryWithoutFiles : QueryResult :=
  { QueryID := "q-3", Severity := "LOW", Category := "Backup",
    Description := "d", CISDescriptionID := "", Files := [] }

end SonarQube

namespace Shell

/-! ## Lemmas on the string functions -/

theorem replaceFrom_single (a : Char) (l : List Char) :
    replaceFrom [a] [] 0 l = l.filter (fun c => c != a) := by
  induction l with
  | nil => rfl
  | cons c cs ih =>
    by_cases h : a = c
    · subst h
      simp [replaceFrom, List.isPrefixOf, ih]
    · have h2 : (c != a) = true := by simpa using fun e => h e.symm
      simp [replaceFrom, List.isPrefixOf, ih, h, h2]

theorem ReplaceAll_single (s : String) (a : Char) :
    ReplaceAll s (String.singleton a) "" = ⟨s.data.filter (fun c => c != a)⟩ := by
  have h1 : String.singleton a ≠ "" := by
    intro h
    have := congrArg String.length h
    simp at this
  have h2 : (String.singleton a).data = [a] := rfl
  simp only [ReplaceAll, if_neg h1, h2]
  simp [replaceFrom_single]

theorem getFullCommand_data (pr : Printer) (args : List Word) :
    (getFullCommand pr args).data =
      (pr.printCall args).data.filter (fun c => !isStripped c) := by
  have e1 : ("\n" : String) = String.singleton '\n' := rfl
  have e2 : ("\r" : String) = String.singleton '\r' := rfl
  have e3 : ("\t" : String) = String.singleton '\t' := rfl
  have e4 : ("\\" : String) = String.singleton '\\' := rfl
  simp only [getFullCommand, e1, e2, e3, e4, ReplaceAll_single, List.filter_filter]
  congr 1
  funext c
  simp [isStripped, Bool.and_comm, Bool.and_assoc]
  tauto

theorem TrimSpace_data (s : String) :
    (TrimSpace s).data = (s.data.dropWhile IsSpace).rdropWhile IsSpace := rfl

theorem trimmed_trim (l : List Char) :
    Trimmed ((l.dropWhile IsSpace).rdropWhile IsSpace) := by
  constructor
  · intro c hc
    have hpre : (l.dropWhile IsSpace).rdropWhile IsSpace <+: l.dropWhile IsSpace :=
      List.rdropWhile_prefix _ _
    obtain ⟨t, ht⟩ := hpre
    have hd : (l.dropWhile IsSpace).head? = some c := by
      rw [← ht]
      cases h : (l.dropWhile IsSpace).rdropWhile IsSpace with
      | nil => rw [h] at hc; simp at hc
      | cons x xs => rw [h] at hc; simpa using hc
    have hne : l.dropWhile IsSpace ≠ [] := by
      intro h; rw [h] at hd; simp at hd
    have := List.head_dropWhile_not IsSpace l hne
    rw [List.head?_eq_head hne] at hd
    cases hd
    exact this
  · intro c hc
    have hne : (l.dropWhile IsSpace).rdropWhile IsSpace ≠ [] := by
      intro h; rw [h] at hc; simp at hc
    have := List.rdropWhile_last_not IsSpace (l.dropWhile IsSpace) hne
    rw [List.getLast?_eq_getLast _ hne] at hc
    cases hc
    simpa using this

theorem trimmed_TrimSpace (s : String) : Trimmed (TrimSpace s).data :=
  trimmed_trim s.data

theorem trim_eq_self (l : List Char) (h : Trimmed l) :
    (l.dropWhile IsSpace).rdropWhile IsSpace = l := by
  have h1 : l.dropWhile IsSpace = l := by
    rw [List.dropWhile_eq_self_iff]
    intro hl
    have := h.1 (l.get ⟨0, hl⟩) (by
      cases l with
      | nil => simp at hl
      | cons x xs => simp)
    simpa using this
  rw [h1, List.rdropWhile_eq_self_iff]
  intro hl
  have := h.2 (l.getLast hl) (List.getLast?_eq_getLast _ hl)
  simp [this]

theorem TrimSpace_eq_self (s : String) (h : Trimmed s.data) : TrimSpace s = s := by
  have : (TrimSpace s).data = s.data := trim_eq_self s.data h
  cases s
  exact congrArg String.mk this

theorem TrimSpace_idem (s : String) : TrimSpace (TrimSpace s) = TrimSpace s :=
  TrimSpace_eq_self _ (trimmed_TrimSpace s)

theorem mem_TrimSpace {c : Char} {s : String} (h : c ∈ (TrimSpace s).data) : c ∈ s.data := by
  rw [TrimSpace_data] at h
  exact (List.dropWhile_suffix IsSpace).subset ((List.rdropWhile_prefix IsSpace _).subset h)

theorem HasPrefix_iff (s p : String) : HasPrefix s p = true ↔ p.data <+: s.data := by
  simp only [HasPrefix, Bool.and_eq_true, decide_eq_true_eq]
  constructor
  · rintro ⟨_, h⟩
    rw [← h]
    exact List.take_prefix _ _
  · intro h
    exact ⟨h.length_le, List.prefix_iff_eq_take.mp h |>.symm⟩

theorem TrimPrefix_of_append (s p : String) (rest : List Char) (h : s.data = p.data ++ rest) :
    TrimPrefix s p = ⟨rest⟩ := by
  have hp : HasPrefix s p = true := (HasPrefix_iff s p).mpr ⟨rest, h.symm⟩
  simp [TrimPrefix, hp, h]

theorem TrimPrefix_of_not (s p : String) (h : ¬ p.data <+: s.data) : TrimPrefix s p = s := by
  have hp : ¬ HasPrefix s p = true := fun e => h ((HasPrefix_iff s p).mp e)
  simp [TrimPrefix, hp]

theorem mem_TrimPrefix {c : Char} {s p : String} (h : c ∈ (TrimPrefix s p).data) :
    c ∈ s.data := by
  unfold TrimPrefix at h
  split at h
  · exact List.mem_of_mem_drop h
  · exact h

theorem TrimSpace_eq_empty_iff (s : String) :
    TrimSpace s = "" ↔ ∀ c ∈ s.data, IsSpace c = true := by
  have hd : TrimSpace s = "" ↔ (TrimSpace s).data = [] := by
    constructor
    · intro h; rw [h]
    · intro h
      cases hs : TrimSpace s with
      | mk d => rw [hs] at h; simp at h; subst h; rfl
  rw [hd, TrimSpace_data, List.rdropWhile_eq_nil_iff]
  constructor
  · intro h
    by_cases hne : s.data.dropWhile IsSpace = []
    · exact List.dropWhile_eq_nil_iff.mp hne
    · have h1 := h _ (List.head_mem hne)
      have h2 := List.head_dropWhile_not IsSpace s.data hne
      rw [h1] at h2
      cases h2
  · intro h
    rw [List.dropWhile_eq_nil_iff.mpr h]
    simp

/-! ## Lemmas on `getStmtInfo` -/

theorem getStmtInfo_qualified (pr : Printer) (stmt : Stmt) (args : List Word)
    (h : 2 < args.length) :
    getStmtInfo pr stmt args =
      { Cmd := TrimSpace (getWordValue pr (args.get ⟨1, by omega⟩)),
        Original := TrimSpace (getFullCommand pr args),
        Value := TrimSpace (TrimPrefix (TrimSpace (getFullCommand pr args))
          (TrimSpace (getWordValue pr (args.get ⟨1, by omega⟩)))),
        StartLine := (args.get ⟨0, by omega⟩).Pos.Line,
        EndLine := (args.get ⟨args.length - 1, by omega⟩).End.Line } := by
  simp only [getStmtInfo]
  rw [dif_pos h]

theorem getStmtInfo_unqualified (pr : Printer) (stmt : Stmt) (args : List Word)
    (h : args.length ≤ 2) : getStmtInfo pr stmt args = Command.zero := by
  simp only [getStmtInfo]
  rw [dif_neg (by omega)]

theorem get_last_eq_getLast (args : List Word) (h : 0 < args.length) :
    args.get ⟨args.length - 1, by omega⟩ = args.getLast (List.ne_nil_of_length_pos h) := by
  rw [List.getLast_eq_getElem]
  rfl

/-! ## Lemmas on the map and on `getStmt` -/

theorem CommandMap.get_set (m : CommandMap) (k k2 : String) (v : List Command) :
    (m.set k v).get k2 = if k = k2 then v else m.get k2 := by
  induction m with
  | nil => simp [CommandMap.set, CommandMap.get]
  | cons p rest ih =>
    obtain ⟨k1, v1⟩ := p
    by_cases h1 : k1 = k
    · subst h1
      by_cases h2 : k1 = k2 <;> simp [CommandMap.set, CommandMap.get, h2]
    · by_cases h2 : k1 = k2
      · subst h2
        have : ¬ k = k1 := fun e => h1 e.symm
        simp [CommandMap.set, CommandMap.get, h1, this]
      · simp [CommandMap.set, CommandMap.get, h1, h2, ih]

theorem getStmt_call (pr : Printer) (i : Info) (stmt : Stmt) (args : List Word)
    (hc : stmt.Cmd = .CallExpr args) :
    getStmt pr i stmt =
      if (getStmtInfo pr stmt args).Cmd ≠ "" then
        { i with
          FromValues := i.FromValues ++
            [{ Value := (getStmtInfo pr stmt args).Value,
               Line := (getStmtInfo pr stmt args).StartLine }],
          From := i.From.set (getStmtInfo pr stmt args).Value
            (i.From.get (getStmtInfo pr stmt args).Value ++ [getStmtInfo pr stmt args]) }
      else
        { i with
          FromValues := i.FromValues ++
            [{ Value := (getStmtInfo pr stmt args).Value,
               Line := (getStmtInfo pr stmt args).StartLine }] } := by
  unfold getStmt
  rw [hc]
  by_cases hcmd : (getStmtInfo pr stmt args).Cmd = ""
  · simp [hcmd]
  · simp [hcmd]

theorem getStmt_other (pr : Printer) (i : Info) (stmt : Stmt) (hc : stmt.Cmd = .Other) :
    getStmt pr i stmt = i := by
  unfold getStmt
  rw [hc]

theorem getStmt_FromValues (pr : Printer) (i : Info) (stmt : Stmt) :
    (getStmt pr i stmt).FromValues = i.FromValues ++ stmt.fromValues pr := by
  cases hc : stmt.Cmd with
  | CallExpr args =>
    rw [getStmt_call pr i stmt args hc]
    simp only [Stmt.fromValues, hc]
    split <;> rfl
  | Other =>
    rw [getStmt_other pr i stmt hc]
    simp [Stmt.fromValues, hc]

theorem getStmt_From_get (pr : Printer) (i : Info) (stmt : Stmt) (k : String) :
    (getStmt pr i stmt).From.get k =
      i.From.get k ++ (stmt.records pr).filter (fun r => decide (r.Cmd ≠ "" ∧ r.Value = k)) := by
  cases hc : stmt.Cmd with
  | CallExpr args =>
    rw [getStmt_call pr i stmt args hc]
    simp only [Stmt.records, hc]
    by_cases hcmd : (getStmtInfo pr stmt args).Cmd = ""
    · simp [hcmd]
    · by_cases hk : (getStmtInfo pr stmt args).Value = k
      · simp [hcmd, hk, CommandMap.get_set]
      · simp [hcmd, hk, CommandMap.get_set]
  | Other =>
    rw [getStmt_other pr i stmt hc]
    simp [Stmt.records, hc]

theorem foldl_getStmt_FromValues (pr : Printer) (stmts : List Stmt) (i : Info) :
    (stmts.foldl (getStmt pr) i).FromValues =
      i.FromValues ++ stmts.flatMap (Stmt.fromValues pr) := by
  induction stmts generalizing i with
  | nil => simp
  | cons s rest ih =>
    simp only [List.foldl_cons, List.flatMap_cons]
    rw [ih, getStmt_FromValues, List.append_assoc]

theorem foldl_getStmt_From_get (pr : Printer) (stmts : List Stmt) (i : Info) (k : String) :
    (stmts.foldl (getStmt pr) i).From.get k =
      i.From.get k ++
        (stmts.flatMap (Stmt.records pr)).filter (fun r => decide (r.Cmd ≠ "" ∧ r.Value = k)) := by
  induction stmts generalizing i with
  | nil => simp
  | cons s rest ih =>
    simp only [List.foldl_cons, List.flatMap_cons, List.filter_append]
    rw [ih, getStmt_From_get, List.append_assoc]

mutual
theorem Walk_info (pr : Printer) : ∀ (n : Node) (s : WalkState),
    (Walk (parseVisit pr) n s).info = (stmtNodes n).foldl (getStmt pr) s.info
  | .Stmt stmt children, s => by
    simp only [Walk, parseVisit, stmtNodes, if_true, List.foldl_cons]
    rw [walkList_info pr children]
  | .Comment hash, s => by
    simp [Walk, parseVisit, stmtNodes]
  | .Other children, s => by
    simp only [Walk, parseVisit, stmtNodes, if_true]
    rw [walkList_info pr children]
  | .IfClause cond thn els last, s => by
    simp only [Walk, parseVisit, stmtNodes, if_true, List.foldl_append]
    rw [walkList_info pr els, walkList_info pr thn, walkList_info pr cond]
theorem walkList_info (pr : Printer) : ∀ (ns : List Node) (s : WalkState),
    (walkList (parseVisit pr) ns s).info = (stmtNodesList ns).foldl (getStmt pr) s.info
  | [], s => by simp [walkList, stmtNodesList]
  | n :: ns, s => by
    simp only [walkList, stmtNodesList, List.foldl_append]
    rw [walkList_info pr ns, Walk_info pr n]
end

theorem length_flatMap_fromValues (pr : Printer) (stmts : List Stmt) :
    (stmts.flatMap (Stmt.fromValues pr)).length = (stmts.filter Stmt.isCall).length := by
  induction stmts with
  | nil => rfl
  | cons s rest ih =>
    cases hc : s.Cmd with
    | CallExpr args => simp [Stmt.fromValues, Stmt.isCall, hc, ih]
    | Other => simp [Stmt.fromValues, Stmt.isCall, hc, ih]

/-! ## The command extractor: theorems -/

/-- C1: for an argument list `t0..tn` of at least three tokens, `getStmtInfo`
returns the record whose `Cmd` is the trimmed rendering of `t1`, whose
`Original` is the trimmed rendering of the whole list with every newline,
carriage return, tab and backslash removed, whose `Value` is the trimmed rest
of `Original` after a leading `Cmd` when `Original` starts with `Cmd` and the
trimmed `Original` otherwise, whose `StartLine` is the line of the start of
`t0` and whose `EndLine` is the line of the end of `tn`. -/
theorem getStmtInfo_qualified_record (pr : Printer) (stmt : Stmt) (args : List Word)
    (h : 3 ≤ args.length) :
    (getStmtInfo pr stmt args).Cmd = TrimSpace (pr.printWord (args.get ⟨1, by omega⟩)) ∧
    (getStmtInfo pr stmt args).Original =
      TrimSpace ⟨(pr.printCall args).data.filter (fun c => !isStripped c)⟩ ∧
    (∀ rest : List Char,
      (getStmtInfo pr stmt args).Original.data = (getStmtInfo pr stmt args).Cmd.data ++ rest →
        (getStmtInfo pr stmt args).Value = TrimSpace ⟨rest⟩) ∧
    (¬ (getStmtInfo pr stmt args).Cmd.data <+: (getStmtInfo pr stmt args).Original.data →
        (getStmtInfo pr stmt args).Value = TrimSpace (getStmtInfo pr stmt args).Original) ∧
    (getStmtInfo pr stmt args).StartLine = (args.get ⟨0, by omega⟩).Pos.Line ∧
    (getStmtInfo pr stmt args).EndLine =
      (args.getLast (List.ne_nil_of_length_pos (by omega))).End.Line := by
  rw [getStmtInfo_qualified pr stmt args (by omega)]
  refine ⟨rfl, ?_, ?_, ?_, rfl, ?_⟩
  · show TrimSpace (getFullCommand pr args) = _
    congr 1
    have := getFullCommand_data pr args
    cases hg : getFullCommand pr args with
    | mk d => rw [hg] at this; exact congrArg String.mk this
  · intro rest hrest
    show TrimSpace (TrimPrefix _ _) = _
    rw [TrimPrefix_of_append _ _ rest hrest]
  · intro hn
    show TrimSpace (TrimPrefix _ _) = _
    rw [TrimPrefix_of_not _ _ hn]
  · show (args.get ⟨args.length - 1, _⟩).End.Line = _
    rw [get_last_eq_getLast args (by omega)]

/-- Witness of C1 on `buildah run ctr1 echo hi`. -/
theorem getStmtInfo_qualified_record_witness :
    3 ≤ buildahRun.length ∧
    (getStmtInfo textPrinter ⟨.CallExpr buildahRun⟩ buildahRun).Cmd = "run" ∧
    (getStmtInfo textPrinter ⟨.CallExpr buildahRun⟩ buildahRun).Original =
      "buildah run ctr1 echo hi" ∧
    (getStmtInfo textPrinter ⟨.CallExpr buildahRun⟩ buildahRun).StartLine = 1 ∧
    (getStmtInfo textPrinter ⟨.CallExpr buildahRun⟩ buildahRun).EndLine = 1 :=
  ⟨by decide,
   (getStmtInfo_qualified_record textPrinter ⟨.CallExpr buildahRun⟩ buildahRun (by decide)).1.trans
     (by decide),
   (getStmtInfo_qualified_record textPrinter ⟨.CallExpr buildahRun⟩ buildahRun
     (by decide)).2.1.trans (by decide),
   (getStmtInfo_qualified_record textPrinter ⟨.CallExpr buildahRun⟩ buildahRun
     (by decide)).2.2.2.2.1.trans (by decide),
   (getStmtInfo_qualified_record textPrinter ⟨.CallExpr buildahRun⟩ buildahRun
     (by decide)).2.2.2.2.2.trans (by decide)⟩

/-- C2: for an argument list of two or fewer tokens (the empty list included)
`getStmtInfo` returns the all-empty record, whatever the printer returns:
`Cmd`, `Original` and `Value` are the empty string, `StartLine` and `EndLine`
are 0. -/
theorem getStmtInfo_few_tokens (pr : Printer) (stmt : Stmt) (args : List Word)
    (h : args.length ≤ 2) :
    getStmtInfo pr stmt args =
      { Cmd := "", Original := "", Value := "", StartLine := 0, EndLine := 0 } :=
  getStmtInfo_unqualified pr stmt args h

/-- Witness of C2 on `echo hi`. -/
theorem getStmtInfo_few_tokens_witness :
    echoHi.length ≤ 2 ∧
    getStmtInfo textPrinter ⟨.CallExpr echoHi⟩ echoHi =
      { Cmd := "", Original := "", Value := "", StartLine := 0, EndLine := 0 } :=
  ⟨by decide, getStmtInfo_few_tokens textPrinter ⟨.CallExpr echoHi⟩ echoHi (by decide)⟩

/-- C3 fails as stated, in both halves. For the tokens `buildah`, U+00A0 and
`ctr1` the second token renders as one no-break space, which
`strings.TrimSpace` removes: the statement has three tokens, its lines are 1
and its `Cmd` is empty. For `buildah run ctr1` on a line past the last line
number that a position can hold, `Cmd` is `run` and `StartLine` and `EndLine`
are 0. -/
theorem getStmtInfo_populated_counterexample :
    (3 ≤ noBreakSpaceToken.length ∧
      (getStmtInfo textPrinter (callStmt noBreakSpaceToken) noBreakSpaceToken).Cmd = "" ∧
      ¬ ((getStmtInfo textPrinter (callStmt noBreakSpaceToken) noBreakSpaceToken).Cmd ≠ "" ∧
         (getStmtInfo textPrinter (callStmt noBreakSpaceToken) noBreakSpaceToken).StartLine ≠ 0 ∧
         (getStmtInfo textPrinter (callStmt noBreakSpaceToken) noBreakSpaceToken).EndLine ≠ 0)) ∧
    (3 ≤ pastLastLine.length ∧
      (getStmtInfo textPrinter (callStmt pastLastLine) pastLastLine).Cmd = "run" ∧
      (getStmtInfo textPrinter (callStmt pastLastLine) pastLastLine).StartLine = 0 ∧
      (getStmtInfo textPrinter (callStmt pastLastLine) pastLastLine).EndLine = 0 ∧
      ¬ ((getStmtInfo textPrinter (callStmt pastLastLine) pastLastLine).Cmd ≠ "" ∧
         (getStmtInfo textPrinter (callStmt pastLastLine) pastLastLine).StartLine ≠ 0 ∧
         (getStmtInfo textPrinter (callStmt pastLastLine) pastLastLine).EndLine ≠ 0)) := by
  decide

/-- C3, amended: for a statement of at least three tokens, `Cmd` is the
trimmed rendering of the second token, `StartLine` is the line of the start of
the first token and `EndLine` is the line of the end of the last token; so
`Cmd` is not empty exactly when that rendering has a character that is not
whitespace, and the three fields are all populated (`Cmd` not empty, both
lines not 0) exactly when it has one and both token lines are not 0. -/
theorem getStmtInfo_populated (pr : Printer) (stmt : Stmt) (args : List Word)
    (h : 3 ≤ args.length) :
    (getStmtInfo pr stmt args).Cmd = TrimSpace (pr.printWord (args.get ⟨1, by omega⟩)) ∧
    (getStmtInfo pr stmt args).StartLine = (args.get ⟨0, by omega⟩).Pos.Line ∧
    (getStmtInfo pr stmt args).EndLine =
      (args.getLast (List.ne_nil_of_length_pos (by omega))).End.Line ∧
    ((getStmtInfo pr stmt args).Cmd ≠ "" ↔
      ∃ c ∈ (pr.printWord (args.get ⟨1, by omega⟩)).data, IsSpace c = false) ∧
    (((getStmtInfo pr stmt args).Cmd ≠ "" ∧ (getStmtInfo pr stmt args).StartLine ≠ 0 ∧
        (getStmtInfo pr stmt args).EndLine ≠ 0) ↔
      ((∃ c ∈ (pr.printWord (args.get ⟨1, by omega⟩)).data, IsSpace c = false) ∧
        (args.get ⟨0, by omega⟩).Pos.Line ≠ 0 ∧
        (args.getLast (List.ne_nil_of_length_pos (by omega))).End.Line ≠ 0)) := by
  have hcmd : (getStmtInfo pr stmt args).Cmd =
      TrimSpace (pr.printWord (args.get ⟨1, by omega⟩)) := by
    rw [getStmtInfo_qualified pr stmt args (by omega)]
    rfl
  have hstart : (getStmtInfo pr stmt args).StartLine = (args.get ⟨0, by omega⟩).Pos.Line := by
    rw [getStmtInfo_qualified pr stmt args (by omega)]
  have hend : (getStmtInfo pr stmt args).EndLine =
      (args.getLast (List.ne_nil_of_length_pos (by omega))).End.Line := by
    rw [getStmtInfo_qualified pr stmt args (by omega)]
    show (args.get ⟨args.length - 1, _⟩).End.Line = _
    rw [get_last_eq_getLast args (by omega)]
  have hne : (getStmtInfo pr stmt args).Cmd ≠ "" ↔
      ∃ c ∈ (pr.printWord (args.get ⟨1, by omega⟩)).data, IsSpace c = false := by
    rw [hcmd, Ne, TrimSpace_eq_empty_iff]
    simp
  refine ⟨hcmd, hstart, hend, hne, ?_⟩
  rw [hne, hstart, hend]

/-- Witness of the amended C3 on `buildah run ctr1 echo hi`. -/
theorem getStmtInfo_populated_witness :
    3 ≤ buildahRun.length ∧
    (getStmtInfo textPrinter ⟨.CallExpr buildahRun⟩ buildahRun).Cmd = "run" ∧
    (getStmtInfo textPrinter ⟨.CallExpr buildahRun⟩ buildahRun).StartLine = 1 ∧
    (getStmtInfo textPrinter ⟨.CallExpr buildahRun⟩ buildahRun).EndLine = 1 ∧
    ((getStmtInfo textPrinter ⟨.CallExpr buildahRun⟩ buildahRun).Cmd ≠ "" ∧
      (getStmtInfo textPrinter ⟨.CallExpr buildahRun⟩ buildahRun).StartLine ≠ 0 ∧
      (getStmtInfo textPrinter ⟨.CallExpr buildahRun⟩ buildahRun).EndLine ≠ 0) :=
  ⟨by decide,
   (getStmtInfo_populated textPrinter ⟨.CallExpr buildahRun⟩ buildahRun (by decide)).1.trans
     (by decide),
   (getStmtInfo_populated textPrinter ⟨.CallExpr buildahRun⟩ buildahRun (by decide)).2.1.trans
     (by decide),
   (getStmtInfo_populated textPrinter ⟨.CallExpr buildahRun⟩ buildahRun (by decide)).2.2.1.trans
     (by decide),
   (getStmtInfo_populated textPrinter ⟨.CallExpr buildahRun⟩ buildahRun (by decide)).2.2.2.2.mpr
     ⟨⟨'r', by decide, by decide⟩, by decide, by decide⟩⟩

/-! ## The grouping tracker and the walk: theorems -/

/-- C4: after any sequence of `getStmt` calls from the empty `Info`, every
record in the group of a key `k` of `From` has `Value` equal to `k`; and for
every state and call-expression statement the `FromValues` list that the
guard tests is not empty and its last entry carries the `Value` (and
`StartLine`) of the statement's own record. -/
theorem getStmt_key_is_own_value (pr : Printer) (stmts : List Stmt) :
    (∀ k ∈ (stmts.foldl (getStmt pr) Info.empty).From.keys,
      ∀ r ∈ (stmts.foldl (getStmt pr) Info.empty).From.get k, r.Value = k) ∧
    (∀ (i : Info) (args : List Word),
      (getStmt pr i (callStmt args)).FromValues.length ≠ 0 ∧
      (getStmt pr i (callStmt args)).FromValues.getLast? =
        some { Value := (getStmtInfo pr (callStmt args) args).Value,
               Line := (getStmtInfo pr (callStmt args) args).StartLine }) := by
  constructor
  · intro k _ r hr
    rw [foldl_getStmt_From_get] at hr
    simp only [Info.empty, CommandMap.get, List.nil_append, List.mem_filter,
      decide_eq_true_eq] at hr
    exact hr.2.2
  · intro i args
    rw [getStmt_FromValues]
    simp [Stmt.fromValues, callStmt]

/-- Witness of C4 on the statements `buildah run ctr1 echo hi`, `echo hi` and
`buildah run ctr1 echo hi` on two lines: the only key is the `Value` of the
two records filed under it. -/
theorem getStmt_key_is_own_value_witness :
    (threeStmts.foldl (getStmt textPrinter) Info.empty).From.keys =
      ["buildah run ctr1 echo hi"] ∧
    ∀ r ∈ (threeStmts.foldl (getStmt textPrinter) Info.empty).From.get
        "buildah run ctr1 echo hi", r.Value = "buildah run ctr1 echo hi" :=
  ⟨by decide, (getStmt_key_is_own_value textPrinter threeStmts).1 _ (by decide)⟩

/-- C5 fails as stated: in the tree of `( buildah run ctr1 echo hi )` the walk
visits two statement nodes, the subshell statement and the call inside it, and
`FromValues` gets one entry. -/
theorem parseWalk_FromValues_counterexample :
    (stmtNodes subshellTree).length = 2 ∧
    ¬ ((parseWalk textPrinter subshellTree).info.FromValues.length =
        (stmtNodes subshellTree).length) := by
  decide

/-- C5, amended: after the walk of any tree, `FromValues` has one entry per
visited statement node whose command is a call expression, whether or not the
statement qualified, in traversal order: the `Value` and `StartLine` of that
statement's record. -/
theorem parseWalk_FromValues (pr : Printer) (f : Node) :
    (parseWalk pr f).info.FromValues.length = ((stmtNodes f).filter Stmt.isCall).length ∧
    (parseWalk pr f).info.FromValues = (stmtNodes f).flatMap (Stmt.fromValues pr) := by
  have h : (parseWalk pr f).info.FromValues = (stmtNodes f).flatMap (Stmt.fromValues pr) := by
    unfold parseWalk
    rw [Walk_info, foldl_getStmt_FromValues]
    rfl
  exact ⟨by rw [h, length_flatMap_fromValues], h⟩

/-- C6: for every sequence of call-expression statements processed by
`getStmt` from the empty `Info` and every key `k`, `From[k]` is the
sub-sequence, in traversal order, of the records of the statements whose `Cmd`
is not empty and whose `Value` is `k`; and a call of `getStmt` keeps every
group as a leading part of the new group. -/
theorem getStmt_groups_in_order (pr : Printer) (argss : List (List Word)) (k : String) :
    ((argss.map callStmt).foldl (getStmt pr) Info.empty).From.get k =
      (argss.map (fun args => getStmtInfo pr (callStmt args) args)).filter
        (fun r => decide (r.Cmd ≠ "" ∧ r.Value = k)) ∧
    ∀ (i : Info) (stmt : Stmt), i.From.get k <+: (getStmt pr i stmt).From.get k := by
  constructor
  · rw [foldl_getStmt_From_get]
    simp only [Info.empty, CommandMap.get, List.nil_append]
    congr 1
    induction argss with
    | nil => rfl
    | cons a rest ih => simp [Stmt.records, callStmt, ih]
  · intro i stmt
    rw [getStmt_From_get]
    exact List.prefix_append _ _

/-- Witness of C6: two statements with the same `Value` (the second written on
two lines) are two entries of the same group, the first statement first. -/
theorem getStmt_groups_in_order_witness :
    ((([buildahRun, echoHi, buildahRunTwoLines].map callStmt).foldl (getStmt textPrinter)
        Info.empty).From.get "buildah run ctr1 echo hi").map (fun r => r.EndLine) = [1, 2] :=
  (congrArg (List.map (fun r => r.EndLine))
    (getStmt_groups_in_order textPrinter [buildahRun, echoHi, buildahRunTwoLines]
      "buildah run ctr1 echo hi").1).trans (by decide)

/-- C7: for every `Info` and every call-expression statement of two or fewer
argument tokens, `getStmt` leaves `From` unchanged and appends exactly the
entry with the empty `Value` and `Line` 0 to `FromValues`. -/
theorem getStmt_few_tokens (pr : Printer) (i : Info) (args : List Word)
    (h : args.length ≤ 2) :
    (getStmt pr i (callStmt args)).From = i.From ∧
    (getStmt pr i (callStmt args)).FromValues = i.FromValues ++ [{ Value := "", Line := 0 }] := by
  rw [getStmt_call pr i (callStmt args) args rfl,
    getStmtInfo_unqualified pr (callStmt args) args h]
  simp [Command.zero]

/-- Witness of C7 on `echo hi`, processed from the empty `Info`. -/
theorem getStmt_few_tokens_witness :
    echoHi.length ≤ 2 ∧
    (getStmt textPrinter Info.empty (callStmt echoHi)).From = [] ∧
    (getStmt textPrinter Info.empty (callStmt echoHi)).FromValues =
      [{ Value := "", Line := 0 }] :=
  ⟨by decide, getStmt_few_tokens textPrinter Info.empty echoHi (by decide)⟩

/-! ## The command extractor: normalization and line span -/

/-- C8: for a statement of at least three tokens and whatever text the
printer returns, `Value` has no leading and no trailing whitespace and holds
no newline, carriage return, tab or backslash. -/
theorem getStmtInfo_value_normalized (pr : Printer) (stmt : Stmt) (args : List Word)
    (h : 3 ≤ args.length) :
    Trimmed (getStmtInfo pr stmt args).Value.data ∧
    ∀ c ∈ (getStmtInfo pr stmt args).Value.data,
      c ≠ '\n' ∧ c ≠ '\r' ∧ c ≠ '\t' ∧ c ≠ '\\' := by
  rw [getStmtInfo_qualified pr stmt args (by omega)]
  refine ⟨trimmed_TrimSpace _, ?_⟩
  intro c hc
  have h1 : c ∈ (getFullCommand pr args).data :=
    mem_TrimSpace (mem_TrimPrefix (mem_TrimSpace hc))
  rw [getFullCommand_data] at h1
  have h2 := (List.mem_filter.mp h1).2
  simp [isStripped] at h2
  tauto

/-- Witness of C8 on a command written on two lines, whose rendering holds a
backslash, a newline and a tab. -/
theorem getStmtInfo_value_normalized_witness :
    3 ≤ buildahRunTwoLines.length ∧
    textPrinter.printCall buildahRunTwoLines = "buildah run ctr1 \\\n\techo hi" ∧
    (getStmtInfo textPrinter ⟨.CallExpr buildahRunTwoLines⟩ buildahRunTwoLines).Value =
      "buildah run ctr1 echo hi" ∧
    Trimmed (getStmtInfo textPrinter ⟨.CallExpr buildahRunTwoLines⟩ buildahRunTwoLines).Value.data ∧
    ∀ c ∈ (getStmtInfo textPrinter ⟨.CallExpr buildahRunTwoLines⟩ buildahRunTwoLines).Value.data,
      c ≠ '\n' ∧ c ≠ '\r' ∧ c ≠ '\t' ∧ c ≠ '\\' :=
  ⟨by decide, by decide, by decide,
   getStmtInfo_value_normalized textPrinter ⟨.CallExpr buildahRunTwoLines⟩ buildahRunTwoLines
     (by decide)⟩

/-- C9: for a statement of at least three tokens, if `Original` does not
begin with `Cmd` then `Value` equals `Original`. -/
theorem getStmtInfo_value_eq_original (pr : Printer) (stmt : Stmt) (args : List Word)
    (h : 3 ≤ args.length)
    (hn : ¬ (getStmtInfo pr stmt args).Cmd.data <+: (getStmtInfo pr stmt args).Original.data) :
    (getStmtInfo pr stmt args).Value = (getStmtInfo pr stmt args).Original := by
  rw [getStmtInfo_qualified pr stmt args (by omega)] at hn ⊢
  show TrimSpace (TrimPrefix _ _) = TrimSpace (getFullCommand pr args)
  rw [TrimPrefix_of_not _ _ hn, TrimSpace_idem]

/-- Witness of C9: for the tokens `buildah`, `run`, `ctr1`, `echo`, `hi` the
`Cmd` is `run` and `Value` and `Original` are `buildah run ctr1 echo hi`. -/
theorem getStmtInfo_value_eq_original_witness :
    3 ≤ buildahRun.length ∧
    (getStmtInfo textPrinter ⟨.CallExpr buildahRun⟩ buildahRun).Cmd = "run" ∧
    (getStmtInfo textPrinter ⟨.CallExpr buildahRun⟩ buildahRun).Original =
      "buildah run ctr1 echo hi" ∧
    (getStmtInfo textPrinter ⟨.CallExpr buildahRun⟩ buildahRun).Value =
      (getStmtInfo textPrinter ⟨.CallExpr buildahRun⟩ buildahRun).Original :=
  ⟨by decide, by decide, by decide,
   getStmtInfo_value_eq_original textPrinter ⟨.CallExpr buildahRun⟩ buildahRun (by decide)
     (by decide)⟩

/-- C10 fails as stated: for `buildah run` on line 1 and, after line
continuations, `ctr1` on a line past the last line number that a position can
hold, the library reports line 0 for the end of the last token, and the record
has `StartLine` 1 and `EndLine` 0. -/
theorem getStmtInfo_line_span_counterexample :
    3 ≤ acrossLastLine.length ∧
    (getStmtInfo textPrinter (callStmt acrossLastLine) acrossLastLine).StartLine = 1 ∧
    (getStmtInfo textPrinter (callStmt acrossLastLine) acrossLastLine).EndLine = 0 ∧
    ¬ ((getStmtInfo textPrinter (callStmt acrossLastLine) acrossLastLine).StartLine ≤
       (getStmtInfo textPrinter (callStmt acrossLastLine) acrossLastLine).EndLine) := by
  decide

/-- C10, amended: for a statement of at least three tokens, `StartLine` is
the line that the library reports for the start of the first token and
`EndLine` the line that it reports for the end of the last token, so
`StartLine ≤ EndLine` holds exactly when these two reported lines are in that
order. -/
theorem getStmtInfo_line_span (pr : Printer) (stmt : Stmt) (args : List Word)
    (h : 3 ≤ args.length) :
    (getStmtInfo pr stmt args).StartLine = (args.get ⟨0, by omega⟩).Pos.Line ∧
    (getStmtInfo pr stmt args).EndLine =
      (args.getLast (List.ne_nil_of_length_pos (by omega))).End.Line ∧
    ((getStmtInfo pr stmt args).StartLine ≤ (getStmtInfo pr stmt args).EndLine ↔
      (args.get ⟨0, by omega⟩).Pos.Line ≤
        (args.getLast (List.ne_nil_of_length_pos (by omega))).End.Line) := by
  have hstart : (getStmtInfo pr stmt args).StartLine = (args.get ⟨0, by omega⟩).Pos.Line := by
    rw [getStmtInfo_qualified pr stmt args (by omega)]
  have hend : (getStmtInfo pr stmt args).EndLine =
      (args.getLast (List.ne_nil_of_length_pos (by omega))).End.Line := by
    rw [getStmtInfo_qualified pr stmt args (by omega)]
    show (args.get ⟨args.length - 1, _⟩).End.Line = _
    rw [get_last_eq_getLast args (by omega)]
  refine ⟨hstart, hend, ?_⟩
  rw [hstart, hend]

/-- Witness of the amended C10 on a command written on two lines. -/
theorem getStmtInfo_line_span_witness :
    3 ≤ buildahRunTwoLines.length ∧
    (getStmtInfo textPrinter ⟨.CallExpr buildahRunTwoLines⟩ buildahRunTwoLines).StartLine = 1 ∧
    (getStmtInfo textPrinter ⟨.CallExpr buildahRunTwoLines⟩ buildahRunTwoLines).EndLine = 2 ∧
    (getStmtInfo textPrinter ⟨.CallExpr buildahRunTwoLines⟩ buildahRunTwoLines).StartLine ≤
      (getStmtInfo textPrinter ⟨.CallExpr buildahRunTwoLines⟩ buildahRunTwoLines).EndLine :=
  ⟨by decide,
   (getStmtInfo_line_span textPrinter ⟨.CallExpr buildahRunTwoLines⟩ buildahRunTwoLines
     (by decide)).1.trans (by decide),
   (getStmtInfo_line_span textPrinter ⟨.CallExpr buildahRunTwoLines⟩ buildahRunTwoLines
     (by decide)).2.1.trans (by decide),
   (getStmtInfo_line_span textPrinter ⟨.CallExpr buildahRunTwoLines⟩ buildahRunTwoLines
     (by decide)).2.2.mpr (by decide)⟩

/-! ## Lemmas on `Parse` -/

mutual
theorem Walk_ignoreLines (pr : Printer) : ∀ (n : Node) (s : WalkState),
    (Walk (parseVisit pr) n s).ignoreLines =
      s.ignoreLines ++ (commentNodes n).map (fun p => p.Line)
  | .Stmt stmt children, s => by
    simp only [Walk, parseVisit, commentNodes, if_true]
    rw [walkList_ignoreLines pr children]
  | .Comment hash, s => by
    simp [Walk, parseVisit, commentNodes]
  | .Other children, s => by
    simp only [Walk, parseVisit, commentNodes, if_true]
    rw [walkList_ignoreLines pr children]
  | .IfClause cond thn els last, s => by
    simp only [Walk, parseVisit, commentNodes, if_true, List.map_append]
    rw [walkList_ignoreLines pr els, walkList_ignoreLines pr thn,
      walkList_ignoreLines pr cond]
    simp only [List.append_assoc]
theorem walkList_ignoreLines (pr : Printer) : ∀ (ns : List Node) (s : WalkState),
    (walkList (parseVisit pr) ns s).ignoreLines =
      s.ignoreLines ++ (commentNodesList ns).map (fun p => p.Line)
  | [], s => by simp [walkList, commentNodesList]
  | n :: ns, s => by
    simp only [walkList, commentNodesList, List.map_append]
    rw [walkList_ignoreLines pr ns, Walk_ignoreLines pr n, List.append_assoc]
end

mutual
theorem commentNodes_sublist : ∀ n : Node, (commentNodes n).Sublist (treeComments n)
  | .Stmt _ children => by
    simp only [commentNodes, treeComments]
    exact commentNodesList_sublist children
  | .Comment hash => by
    simp only [commentNodes, treeComments]
    exact List.Sublist.refl _
  | .Other children => by
    simp only [commentNodes, treeComments]
    exact commentNodesList_sublist children
  | .IfClause cond thn els last => by
    simp only [commentNodes, treeComments]
    exact (commentNodesList_sublist cond).append
      ((commentNodesList_sublist thn).append
        ((commentNodesList_sublist els).trans (List.sublist_append_right _ _)))
theorem commentNodesList_sublist : ∀ ns : List Node,
    (commentNodesList ns).Sublist (treeCommentsList ns)
  | [] => by
    simp only [commentNodesList, treeCommentsList]
    exact List.Sublist.refl _
  | n :: ns => by
    simp only [commentNodesList, treeCommentsList]
    exact (commentNodes_sublist n).append (commentNodesList_sublist ns)
end

mutual
theorem treeComments_length : ∀ n : Node,
    (treeComments n).length = (commentNodes n).length + (lastComments n).length
  | .Stmt _ children => by
    simp only [commentNodes, treeComments, lastComments]
    exact treeCommentsList_length children
  | .Comment hash => by
    simp [commentNodes, treeComments, lastComments]
  | .Other children => by
    simp only [commentNodes, treeComments, lastComments]
    exact treeCommentsList_length children
  | .IfClause cond thn els last => by
    simp only [commentNodes, treeComments, lastComments, List.length_append]
    rw [treeCommentsList_length cond, treeCommentsList_length thn, treeCommentsList_length els]
    omega
theorem treeCommentsList_length : ∀ ns : List Node,
    (treeCommentsList ns).length = (commentNodesList ns).length + (lastCommentsList ns).length
  | [] => by
    simp [commentNodesList, treeCommentsList, lastCommentsList]
  | n :: ns => by
    simp only [commentNodesList, treeCommentsList, lastCommentsList, List.length_append]
    rw [treeComments_length n, treeCommentsList_length ns]
    omega
end

theorem commentNodes_eq_treeComments (n : Node) (h : lastComments n = []) :
    commentNodes n = treeComments n := by
  apply (commentNodes_sublist n).eq_of_length
  rw [treeComments_length, h]
  rfl

theorem Parse_ok {ε : Type} (parseFile : List UInt8 → Except ε Node) (pr : Printer)
    (fileContent : List UInt8) (f : Node) (h : parseFile fileContent = .ok f) :
    Parse parseFile pr fileContent =
      { documents := some [Resource.toDocument { CommandList := (parseWalk pr f).info.From }],
        lines := (parseWalk pr f).ignoreLines, err := none } := by
  simp only [Parse, h]
  rfl

theorem Parse_error {ε : Type} (parseFile : List UInt8 → Except ε Node) (pr : Printer)
    (fileContent : List UInt8) (e : ε) (h : parseFile fileContent = .error e) :
    Parse parseFile pr fileContent = { documents := none, lines := [], err := some e } := by
  simp only [Parse, h]

theorem getStmt_frame (pr : Printer) (i : Info) (stmt : Stmt) :
    (getStmt pr i stmt).IgnoreBlockLines = i.IgnoreBlockLines ∧
    (getStmt pr i stmt).IgnoreLines = i.IgnoreLines := by
  cases hc : stmt.Cmd with
  | CallExpr args =>
    rw [getStmt_call pr i stmt args hc]
    split <;> exact ⟨rfl, rfl⟩
  | Other =>
    rw [getStmt_other pr i stmt hc]
    exact ⟨rfl, rfl⟩

theorem foldl_getStmt_frame (pr : Printer) (stmts : List Stmt) (i : Info) :
    (stmts.foldl (getStmt pr) i).IgnoreBlockLines = i.IgnoreBlockLines := by
  induction stmts generalizing i with
  | nil => rfl
  | cons s rest ih =>
    simp only [List.foldl_cons]
    rw [ih, (getStmt_frame pr i s).1]

/-! ## `Parse`: theorems -/

/-- C11: when the parser of the syntax library fails on the input, `Parse`
returns that error with the nil document list and the empty line list, and
the result does not depend on the printer: no statement or comment is
processed. -/
theorem Parse_parser_error {ε : Type} (parseFile : List UInt8 → Except ε Node) (pr : Printer)
    (fileContent : List UInt8) (e : ε) (h : parseFile fileContent = .error e) :
    Parse parseFile pr fileContent = { documents := none, lines := [], err := some e } ∧
    ∀ pr2 : Printer, Parse parseFile pr2 fileContent = Parse parseFile pr fileContent := by
  refine ⟨Parse_error parseFile pr fileContent e h, fun pr2 => ?_⟩
  rw [Parse_error parseFile pr fileContent e h, Parse_error parseFile pr2 fileContent e h]

/-- Witness of C11 on a parser that rejects its input. -/
theorem Parse_parser_error_witness :
    Parse parseFails textPrinter [0x27] =
      { documents := none, lines := [], err := some "reached EOF without closing quote" } :=
  (Parse_parser_error parseFails textPrinter [0x27] "reached EOF without closing quote" rfl).1

/-- C12 fails as stated: the tree of the if/else file holds three comment
nodes, on lines 3, 6 and 8; the comments of lines 3 and 6 are in the field
`Last` of the if clause and of its else clause, which the walk of the library
never presents, and `Parse` returns the line list with the one entry 8. -/
theorem Parse_comment_lines_counterexample :
    (treeComments ifElseTree).map (fun p => p.Line) = [3, 6, 8] ∧
    (Parse (parseTo ifElseTree) textPrinter []).lines = [8] ∧
    ¬ ((Parse (parseTo ifElseTree) textPrinter []).lines.length =
        (treeComments ifElseTree).length) := by
  decide

/-- C12, amended: for every successfully parsed tree, the line list returned
by `Parse` has exactly one entry per comment node that the walk presents to
the callback, the line of that comment, in traversal order, with no
deduplication and no sorting. The presented comment nodes are the comment
nodes of the tree, in order, without those in the field `Last` of an if
clause; they are all the comment nodes of the tree when no if clause has a
comment in `Last`. -/
theorem Parse_comment_lines {ε : Type} (parseFile : List UInt8 → Except ε Node)
    (pr : Printer) (fileContent : List UInt8) (f : Node)
    (h : parseFile fileContent = .ok f) :
    (Parse parseFile pr fileContent).lines = (commentNodes f).map (fun p => p.Line) ∧
    (Parse parseFile pr fileContent).lines.length = (commentNodes f).length ∧
    (commentNodes f).Sublist (treeComments f) ∧
    (treeComments f).length =
      (Parse parseFile pr fileContent).lines.length + (lastComments f).length ∧
    (lastComments f = [] →
      (Parse parseFile pr fileContent).lines = (treeComments f).map (fun p => p.Line)) := by
  have hl : (Parse parseFile pr fileContent).lines = (commentNodes f).map (fun p => p.Line) := by
    rw [Parse_ok parseFile pr fileContent f h]
    show (parseWalk pr f).ignoreLines = _
    unfold parseWalk
    rw [Walk_ignoreLines]
    rfl
  have hlen : (Parse parseFile pr fileContent).lines.length = (commentNodes f).length := by
    rw [hl, List.length_map]
  refine ⟨hl, hlen, commentNodes_sublist f, ?_, ?_⟩
  · rw [hlen, treeComments_length]
  · intro hlast
    rw [hl, commentNodes_eq_treeComments f hlast]

/-- Witness of the amended C12: on the if/else file the presented comment is
the one of line 8 and the comments of lines 3 and 6 are passed over; on a file
with no if clause every comment is reported, in traversal order. -/
theorem Parse_comment_lines_witness :
    (Parse (parseTo ifElseTree) textPrinter []).lines = [8] ∧
    (lastComments ifElseTree).map (fun p => p.Line) = [3, 6] ∧
    (Parse (parseTo commentTree) textPrinter []).lines = [1, 2, 3] :=
  ⟨(Parse_comment_lines (parseTo ifElseTree) textPrinter [] ifElseTree rfl).1.trans (by decide),
   by decide,
   ((Parse_comment_lines (parseTo commentTree) textPrinter [] commentTree rfl).2.2.2.2
     (by decide)).trans (by decide)⟩

/-- C13: `getStmt` leaves `IgnoreBlockLines` and `IgnoreLines` unchanged for
every `Info` and every statement, and after the walk of any tree from the
empty `Info` of `Parse`, `IgnoreBlockLines` is the empty sequence. -/
theorem getStmt_reserved_untouched (pr : Printer) :
    (∀ (i : Info) (stmt : Stmt),
      (getStmt pr i stmt).IgnoreBlockLines = i.IgnoreBlockLines ∧
      (getStmt pr i stmt).IgnoreLines = i.IgnoreLines) ∧
    ∀ f : Node, (parseWalk pr f).info.IgnoreBlockLines = [] := by
  refine ⟨getStmt_frame pr, fun f => ?_⟩
  unfold parseWalk
  rw [Walk_info, foldl_getStmt_frame]
  rfl

/-- C14: on success `Parse` returns no error and exactly one document, of the
shape `command` ↦ (key ↦ records), where every record is rendered with the
five fields `Cmd`, `Original`, `Value`, `_kics_line` (carrying `StartLine`)
and `EndLine`, and the keys and the order of the records of a key are those
of `From`. -/
theorem Parse_document {ε : Type} (parseFile : List UInt8 → Except ε Node)
    (pr : Printer) (fileContent : List UInt8) (f : Node)
    (h : parseFile fileContent = .ok f) :
    (Parse parseFile pr fileContent).err = none ∧
    (Parse parseFile pr fileContent).documents =
      some [[("command", .obj ((parseWalk pr f).info.From.map (fun kv =>
        (kv.1, .arr (kv.2.map (fun c =>
          .obj [("Cmd", .str c.Cmd), ("Original", .str c.Original), ("Value", .str c.Value),
            ("_kics_line", .num c.StartLine), ("EndLine", .num c.EndLine)]))))))]] := by
  rw [Parse_ok parseFile pr fileContent f h]
  exact ⟨rfl, rfl⟩

/-- Witness of C14 on the tree of `buildah run ctr1 echo hi` with comments. -/
theorem Parse_document_witness :
    (Parse (parseTo commentTree) textPrinter []).documents =
      some [[("command", .obj [("buildah run ctr1 echo hi",
        .arr [.obj [("Cmd", .str "run"), ("Original", .str "buildah run ctr1 echo hi"),
          ("Value", .str "buildah run ctr1 echo hi"), ("_kics_line", .num 1),
          ("EndLine", .num 1)]])])]] :=
  (Parse_document (parseTo commentTree) textPrinter [] commentTree rfl).2.trans rfl

/-- C15: for a tree with no statement and no comment `Parse` succeeds:
`FromValues` and `From` are empty after the walk, the `command` mapping of the
one document has no key, the line list is empty and there is no error. -/
theorem Parse_empty_tree {ε : Type} (parseFile : List UInt8 → Except ε Node)
    (pr : Printer) (fileContent : List UInt8) (f : Node)
    (h : parseFile fileContent = .ok f) (hs : stmtNodes f = []) (hc : commentNodes f = []) :
    Parse parseFile pr fileContent =
      { documents := some [[("command", .obj [])]], lines := [], err := none } ∧
    (parseWalk pr f).info.FromValues = [] ∧ (parseWalk pr f).info.From = [] := by
  have hi : (parseWalk pr f).info = Info.empty := by
    unfold parseWalk
    rw [Walk_info, hs]
    rfl
  have hl : (parseWalk pr f).ignoreLines = [] := by
    unfold parseWalk
    rw [Walk_ignoreLines, hc]
    rfl
  rw [Parse_ok parseFile pr fileContent f h, hi, hl]
  exact ⟨rfl, rfl, rfl⟩

/-- Witness of C15 on the tree of the empty file. -/
theorem Parse_empty_tree_witness :
    Parse (parseTo emptyFile) textPrinter [] =
      { documents := some [[("command", .obj [])]], lines := [], err := none } ∧
    (parseWalk textPrinter emptyFile).info.FromValues = [] ∧
    (parseWalk textPrinter emptyFile).info.From = [] :=
  Parse_empty_tree (parseTo emptyFile) textPrinter [] emptyFile rfl rfl rfl

/-- C16: for every `Info` and every call-expression statement, `getStmt`
appends exactly one entry to `FromValues`, the `Value` and `StartLine` of the
record that `getStmtInfo` returns, and the previous `FromValues` is a leading
part of the new one; for a statement whose command is not a call expression
`getStmt` changes nothing. -/
theorem getStmt_appends_one (pr : Printer) (i : Info) :
    (∀ args : List Word,
      (getStmt pr i (callStmt args)).FromValues =
        i.FromValues ++ [{ Value := (getStmtInfo pr (callStmt args) args).Value,
                           Line := (getStmtInfo pr (callStmt args) args).StartLine }] ∧
      i.FromValues <+: (getStmt pr i (callStmt args)).FromValues) ∧
    getStmt pr i { Cmd := .Other } = i := by
  refine ⟨fun args => ?_, getStmt_other pr i _ rfl⟩
  rw [getStmt_FromValues]
  exact ⟨rfl, List.prefix_append _ _⟩

/-- Witness of C16 on `echo hi` and `buildah run ctr1 echo hi` in turn. -/
theorem getStmt_appends_one_witness :
    (getStmt textPrinter (getStmt textPrinter Info.empty (callStmt echoHi))
        (callStmt buildahRun)).FromValues =
      [{ Value := "", Line := 0 }, { Value := "buildah run ctr1 echo hi", Line := 1 }] :=
  ((getStmt_appends_one textPrinter
    (getStmt textPrinter Info.empty (callStmt echoHi))).1 buildahRun).1.trans (by decide)

/-- C17: for every argument list, the text returned by `getFullCommand` is the
text of the printer with exactly the newlines, carriage returns, tabs and
backslashes deleted and every other character kept in order; it holds none of
these characters anywhere, and neither does the `Original` of a record. -/
theorem getFullCommand_strips (pr : Printer) (args : List Word) :
    (getFullCommand pr args).data =
      (pr.printCall args).data.filter
        (fun c => decide (c ≠ '\n' ∧ c ≠ '\r' ∧ c ≠ '\t' ∧ c ≠ '\\')) ∧
    (∀ c ∈ (getFullCommand pr args).data, c ≠ '\n' ∧ c ≠ '\r' ∧ c ≠ '\t' ∧ c ≠ '\\') ∧
    ∀ stmt : Stmt, ∀ c ∈ (getStmtInfo pr stmt args).Original.data,
      c ≠ '\n' ∧ c ≠ '\r' ∧ c ≠ '\t' ∧ c ≠ '\\' := by
  have hf : (getFullCommand pr args).data =
      (pr.printCall args).data.filter
        (fun c => decide (c ≠ '\n' ∧ c ≠ '\r' ∧ c ≠ '\t' ∧ c ≠ '\\')) := by
    rw [getFullCommand_data]
    congr 1
    funext c
    simp [isStripped, Bool.and_assoc]
  have hm : ∀ c ∈ (getFullCommand pr args).data,
      c ≠ '\n' ∧ c ≠ '\r' ∧ c ≠ '\t' ∧ c ≠ '\\' := by
    intro c hc
    rw [hf] at hc
    simpa using (List.mem_filter.mp hc).2
  refine ⟨hf, hm, ?_⟩
  intro stmt c hc
  by_cases hlen : 2 < args.length
  · rw [getStmtInfo_qualified pr stmt args hlen] at hc
    exact hm c (mem_TrimSpace hc)
  · rw [getStmtInfo_unqualified pr stmt args (by omega)] at hc
    simp [Command.zero] at hc

/-- Witness of C17 on a command written on two lines. -/
theorem getFullCommand_strips_witness :
    textPrinter.printCall buildahRunTwoLines = "buildah run ctr1 \\\n\techo hi" ∧
    (getFullCommand textPrinter buildahRunTwoLines).data = "buildah run ctr1 echo hi".data :=
  ⟨by decide, (getFullCommand_strips textPrinter buildahRunTwoLines).1.trans (by decide)⟩

end Shell

namespace SonarQube

/-! ## Lemmas on the report builder -/

theorem fileAt_ok (files : List VulnerableFile) (i : Nat) (f : VulnerableFile)
    (h : files[i]? = some f) : fileAt files i = .ok f := by
  simp [fileAt, h]

theorem fileAt_nil (i : Nat) : fileAt [] i = .error (.indexOutOfRange i 0) := by
  simp [fileAt]

theorem buildLocation_ok (index : Nat) (query : QueryResult) (f : VulnerableFile)
    (h : query.Files[index]? = some f) :
    buildLocation index query = .ok (locationOf query f) := by
  simp only [buildLocation, fileAt_ok _ _ _ h]
  rfl

theorem buildLocationWithRef_ok (index : Nat) (query : QueryResult) (f : VulnerableFile)
    (h : query.Files[index]? = some f) :
    buildLocationWithRef index query = .ok (locationWithRefOf query f) := by
  simp only [buildLocationWithRef, fileAt_ok _ _ _ h]
  by_cases hr : f.ReferenceLine = -1
  · simp [locationWithRefOf, messageOf, hr, bind, Except.bind, pure, Except.pure]
  · simp [locationWithRefOf, messageOf, hr, bind, Except.bind, pure, Except.pure]

theorem buildSecondaryLoop_ok (query : QueryResult) :
    ∀ (sliced : List VulnerableFile) (i : Nat) (locations : List LocationWithRef),
      query.Files.drop (i + 1) = sliced →
      buildSecondaryLoop query sliced i locations =
        .ok (locations ++ sliced.map (locationWithRefOf query))
  | [], _, locations, _ => by simp [buildSecondaryLoop]
  | f :: rest, i, locations, h => by
    have hf : query.Files[i + 1]? = some f := by
      have := congrArg List.head? h
      simpa [List.head?_drop] using this
    have hrest : query.Files.drop (i + 1 + 1) = rest := by
      have := congrArg List.tail h
      simpa [List.tail_drop] using this
    simp only [buildSecondaryLoop, buildLocationWithRef_ok _ _ _ hf, bind, Except.bind]
    rw [buildSecondaryLoop_ok query rest (i + 1) _ hrest]
    simp

theorem buildSecondaryLocation_ok (query : QueryResult) (f : VulnerableFile)
    (rest : List VulnerableFile) (h : query.Files = f :: rest) :
    buildSecondaryLocation query = .ok (rest.map (locationWithRefOf query)) := by
  have hs : filesFrom query.Files 1 = .ok rest := by
    simp [filesFrom, h]
  simp only [buildSecondaryLocation, hs, bind, Except.bind]
  rw [buildSecondaryLoop_ok query rest 0 [] (by simp [h])]
  simp

theorem buildIssue_ok (s : SonarQubeReportBuilder) (query : QueryResult)
    (h : query.Files ≠ []) :
    buildIssue s query =
      .ok { s with report := { Issues := s.report.Issues ++ [issueOf s.version query] } } := by
  obtain ⟨f, rest, hf⟩ := List.exists_cons_of_ne_nil h
  have h0 : query.Files[0]? = some f := by simp [hf]
  simp only [buildIssue, buildLocation_ok 0 query f h0,
    buildSecondaryLocation_ok query f rest hf, bind, Except.bind, pure, Except.pure]
  simp [issueOf, hf]

theorem buildIssue_no_files (s : SonarQubeReportBuilder) (query : QueryResult)
    (h : query.Files = []) :
    buildLocation 0 query = .error (.indexOutOfRange 0 0) ∧
    buildIssue s query = .error (.indexOutOfRange 0 0) := by
  have hl : buildLocation 0 query = .error (.indexOutOfRange 0 0) := by
    simp [buildLocation, h, fileAt_nil, bind, Except.bind]
  exact ⟨hl, by simp [buildIssue, hl, bind, Except.bind]⟩

theorem buildIssues_ok : ∀ (queries : List QueryResult) (s : SonarQubeReportBuilder),
    (∀ q ∈ queries, q.Files ≠ []) →
    buildIssues queries s =
      .ok { s with report := { Issues := s.report.Issues ++ queries.map (issueOf s.version) } }
  | [], s, _ => by simp [buildIssues]
  | q :: rest, s, h => by
    have hq : q.Files ≠ [] := h q (List.mem_cons_self _ _)
    simp only [buildIssues, buildIssue_ok s q hq, bind, Except.bind]
    rw [buildIssues_ok rest _ (fun q2 hq2 => h q2 (List.mem_cons_of_mem _ hq2))]
    simp

theorem BuildReport_ok (s : SonarQubeReportBuilder) (summary : Summary)
    (h : ∀ q ∈ summary.Queries, q.Files ≠ []) :
    BuildReport s summary =
      .ok { Issues := s.report.Issues ++ summary.Queries.map (issueOf s.version) } := by
  simp only [BuildReport, buildIssues_ok summary.Queries s h, bind, Except.bind]
  rfl

theorem mapGet_of_mem : ∀ (m : List (String × String)) (k v : String),
    (m.map Prod.fst).Nodup → (k, v) ∈ m → mapGet m k = v
  | [], _, _, _, h => by simp at h
  | (k2, v2) :: rest, k, v, hn, h => by
    simp only [List.map_cons, List.nodup_cons] at hn
    simp only [List.mem_cons, Prod.mk.injEq] at h
    rcases h with ⟨rfl, rfl⟩ | h
    · simp [mapGet]
    · have hne : k2 ≠ k := by
        intro e
        subst e
        exact hn.1 (List.mem_map.mpr ⟨(k2, v), h, rfl⟩)
      simp only [mapGet, if_neg hne]
      exact mapGet_of_mem rest k v hn.2 h

theorem mapGet_of_not_mem : ∀ (m : List (String × String)) (k : String),
    k ∉ m.map Prod.fst → mapGet m k = ""
  | [], _, _ => rfl
  | (k2, v2) :: rest, k, h => by
    simp only [List.map_cons, List.mem_cons, not_or] at h
    have hne : k2 ≠ k := fun e => h.1 e.symm
    simp only [mapGet, if_neg hne]
    exact mapGet_of_not_mem rest k h.2

theorem severity_table (k : String) :
    mapGet severitySonarQubeEquivalence k =
      if k = "INFO" then "INFO" else if k = "LOW" then "MINOR"
      else if k = "MEDIUM" then "MAJOR" else if k = "HIGH" then "CRITICAL" else "" := by
  simp only [severitySonarQubeEquivalence, mapGet, @eq_comm _ _ k]

theorem category_table (k : String) :
    (k ∈ ["Access Control", "Availability", "Backup", "Build Process", "Encryption",
        "Networking and Firewall", "Observability", "Resource Management",
        "Secret Management", "Supply-Chain"] →
      mapGet categorySonarQubeEquivalence k = "VULNERABILITY") ∧
    (k ∈ ["Best Practices", "Insecure Configurations", "Insecure Defaults",
        "Structure and Semantics"] →
      mapGet categorySonarQubeEquivalence k = "CODE_SMELL") ∧
    (k ∉ categorySonarQubeEquivalence.map Prod.fst →
      mapGet categorySonarQubeEquivalence k = "") := by
  have hn : (categorySonarQubeEquivalence.map Prod.fst).Nodup := by decide
  refine ⟨fun h => ?_, fun h => ?_, mapGet_of_not_mem _ k⟩
  · apply mapGet_of_mem _ _ _ hn
    simp only [List.mem_cons, List.mem_singleton, List.not_mem_nil, or_false] at h
    rcases h with h | h | h | h | h | h | h | h | h | h <;> subst h <;> decide
  · apply mapGet_of_mem _ _ _ hn
    simp only [List.mem_cons, List.mem_singleton, List.not_mem_nil, or_false] at h
    rcases h with h | h | h | h <;> subst h <;> decide

/-! ## The report builder: theorems -/

/-- C18 fails as stated: for a summary whose only query has no file,
`BuildReport` on a fresh builder panics on `Files[0]` and returns no
report. -/
theorem BuildReport_issues_counterexample :
    BuildReport (NewSonarQubeRepory "1.0") { Queries := [queryWithoutFiles] } =
      .error (.indexOutOfRange 0 0) ∧
    ¬ ∃ r : SonarQubeReport,
      BuildReport (NewSonarQubeRepory "1.0") { Queries := [queryWithoutFiles] } = .ok r ∧
      r.Issues.length = 1 := by
  have h : BuildReport (NewSonarQubeRepory "1.0") { Queries := [queryWithoutFiles] } =
      .error (.indexOutOfRange 0 0) := rfl
  refine ⟨h, ?_⟩
  rintro ⟨r, hr, _⟩
  rw [h] at hr
  cases hr

/-- C18, amended: for a summary in which every query has at least one file,
`BuildReport` returns a report whose issues are the issues already in the
builder followed by exactly one issue per query, in query order, where the
issue of a query has `RuleID` = `QueryID`, `EngineID` = the version of the
builder, `Severity` by the table INFO→INFO, LOW→MINOR, MEDIUM→MAJOR,
HIGH→CRITICAL (the empty string otherwise) and `Type` by the category table
(VULNERABILITY or CODE_SMELL for a listed category, the empty string for an
unlisted one); on a fresh builder there are no earlier issues. -/
theorem BuildReport_issues (s : SonarQubeReportBuilder) (summary : Summary)
    (h : ∀ q ∈ summary.Queries, 1 ≤ q.Files.length) :
    (∀ v : String, (NewSonarQubeRepory v).report.Issues = []) ∧
    ∃ issues : List Issue,
      BuildReport s summary = .ok { Issues := s.report.Issues ++ issues } ∧
      List.Forall₂ (fun q issue =>
        issue.RuleID = q.QueryID ∧
        issue.EngineID = s.version ∧
        issue.Severity =
          (if q.Severity = "INFO" then "INFO" else if q.Severity = "LOW" then "MINOR"
           else if q.Severity = "MEDIUM" then "MAJOR"
           else if q.Severity = "HIGH" then "CRITICAL" else "") ∧
        (q.Category ∈ ["Access Control", "Availability", "Backup", "Build Process",
            "Encryption", "Networking and Firewall", "Observability", "Resource Management",
            "Secret Management", "Supply-Chain"] → issue.IssueType = "VULNERABILITY") ∧
        (q.Category ∈ ["Best Practices", "Insecure Configurations", "Insecure Defaults",
            "Structure and Semantics"] → issue.IssueType = "CODE_SMELL") ∧
        (q.Category ∉ categorySonarQubeEquivalence.map Prod.fst → issue.IssueType = ""))
        summary.Queries issues := by
  refine ⟨fun _ => rfl, summary.Queries.map (issueOf s.version), ?_, ?_⟩
  · apply BuildReport_ok
    intro q hq hnil
    have := h q hq
    rw [hnil] at this
    simp at this
  · rw [List.forall₂_map_right_iff, List.forall₂_same]
    intro q _
    exact ⟨rfl, rfl, severity_table q.Severity, category_table q.Category⟩

/-- Witness of the amended C18 on a fresh builder and two queries, the second
with an unlisted severity and category. -/
theorem BuildReport_issues_witness :
    ∃ issues : List Issue,
      BuildReport (NewSonarQubeRepory "1.0") { Queries := [exampleQuery, unlistedQuery] } =
        .ok { Issues := issues } ∧
      issues.map (fun i => (i.RuleID, i.EngineID, i.Severity, i.IssueType)) =
        [("q-1", "KICS 1.0", "CRITICAL", "VULNERABILITY"), ("q-2", "KICS 1.0", "", "")] := by
  obtain ⟨_, issues, hb, _⟩ := BuildReport_issues (NewSonarQubeRepory "1.0")
    { Queries := [exampleQuery, unlistedQuery] } (by decide)
  refine ⟨issues, hb, ?_⟩
  have he : BuildReport (NewSonarQubeRepory "1.0") { Queries := [exampleQuery, unlistedQuery] } =
      .ok { Issues := [issueOf "KICS 1.0" exampleQuery, issueOf "KICS 1.0" unlistedQuery] } := rfl
  rw [he] at hb
  injection hb with hb
  injection hb with hb
  simp only [NewSonarQubeRepory, List.nil_append] at hb
  rw [← hb]
  decide

/-- C19: for a query with n ≥ 1 files, the issue that `buildIssue` appends has
the primary location of `Files[0]` and exactly n-1 secondary locations, where
entry j has the file path and start line of `Files[j+1]`; the message of
every location is `CISDescriptionID` when that is not empty and `Description`
otherwise; and a secondary location has the reference file path and the
reference range of its file when the `ReferenceLine` of the file is not -1,
and the empty path and no range when it is -1. -/
theorem buildIssue_locations (s : SonarQubeReportBuilder) (query : QueryResult)
    (h : 1 ≤ query.Files.length) :
    ∃ issue : Issue,
      buildIssue s query = .ok { s with report := { Issues := s.report.Issues ++ [issue] } } ∧
      issue.PrimaryLocation = some
        { Message := if query.CISDescriptionID ≠ "" then query.CISDescriptionID
            else query.Description,
          FilePath := (query.Files.get ⟨0, by omega⟩).FileName,
          TextRange := some { StartLine := (query.Files.get ⟨0, by omega⟩).Line } } ∧
      issue.SecondaryLocations.length = query.Files.length - 1 ∧
      ∀ (j : Nat) (hj : j + 1 < query.Files.length),
        ∃ loc : LocationWithRef,
          issue.SecondaryLocations[j]? = some loc ∧
          loc.Message = (if query.CISDescriptionID ≠ "" then query.CISDescriptionID
            else query.Description) ∧
          loc.FilePath = (query.Files.get ⟨j + 1, hj⟩).FileName ∧
          loc.TextRange = some { StartLine := (query.Files.get ⟨j + 1, hj⟩).Line } ∧
          ((query.Files.get ⟨j + 1, hj⟩).ReferenceLine ≠ -1 →
            loc.ReferenceFilePath = (query.Files.get ⟨j + 1, hj⟩).ReferenceFileName ∧
            loc.ReferenceTextRange =
              some { StartLine := (query.Files.get ⟨j + 1, hj⟩).ReferenceLine }) ∧
          ((query.Files.get ⟨j + 1, hj⟩).ReferenceLine = -1 →
            loc.ReferenceFilePath = "" ∧ loc.ReferenceTextRange = none) := by
  have hne : query.Files ≠ [] := by
    intro e
    rw [e] at h
    simp at h
  refine ⟨issueOf s.version query, buildIssue_ok s query hne, ?_, ?_, ?_⟩
  · obtain ⟨f, rest, hf⟩ := List.exists_cons_of_ne_nil hne
    simp [issueOf, locationOf, messageOf, hf]
  · simp [issueOf]
  · intro j hj
    refine ⟨locationWithRefOf query (query.Files.get ⟨j + 1, hj⟩), ?_, rfl, rfl, rfl, ?_, ?_⟩
    · obtain ⟨f, rest, hf⟩ := List.exists_cons_of_ne_nil hne
      have hj2 : j < rest.length := by
        rw [hf] at hj
        simpa using hj
      simp [issueOf, hf, List.getElem?_eq_getElem hj2]
    · intro hr
      exact ⟨by simp only [locationWithRefOf, if_pos hr],
        by simp only [locationWithRefOf, if_pos hr]⟩
    · intro hr
      have hn : ¬ (query.Files.get ⟨j + 1, hj⟩).ReferenceLine ≠ -1 := fun e => e hr
      exact ⟨by simp only [locationWithRefOf, if_neg hn],
        by simp only [locationWithRefOf, if_neg hn]⟩

/-- Witness of C19 on a query with three files, the second with a
reference. -/
theorem buildIssue_locations_witness :
    1 ≤ exampleQuery.Files.length ∧
    ∃ issue : Issue,
      buildIssue (NewSonarQubeRepory "1.0") exampleQuery =
        .ok { version := "KICS 1.0", report := { Issues := [issue] } } ∧
      issue.PrimaryLocation = some
        { Message := "disk is not encrypted", FilePath := "a.tf",
          TextRange := some { StartLine := 3 } } ∧
      issue.SecondaryLocations.length = 2 :=
  ⟨by decide,
   (buildIssue_locations (NewSonarQubeRepory "1.0") exampleQuery (by decide)).imp
     (fun _ hi => ⟨hi.1, hi.2.1.trans (by decide), hi.2.2.1.trans (by decide)⟩)⟩

/-- C20: for a summary in which every query has at least one file, no index
or slice expression of `BuildReport` is out of range: `Files[0]`, `Files[1:]`
and every `Files[i+1]` of the loop are in bounds and `BuildReport` returns a
report; for a query with no file the access `Files[0]` is out of range. -/
theorem BuildReport_index_safety (s : SonarQubeReportBuilder) (summary : Summary) :
    ((∀ q ∈ summary.Queries, 1 ≤ q.Files.length) →
      (∃ r : SonarQubeReport, BuildReport s summary = .ok r) ∧
      ∀ q ∈ summary.Queries,
        (∃ f, fileAt q.Files 0 = .ok f) ∧
        (∃ fs, filesFrom q.Files 1 = .ok fs ∧
          ∀ i, i < fs.length → ∃ f, fileAt q.Files (i + 1) = .ok f)) ∧
    (∀ q : QueryResult, q.Files = [] →
      fileAt q.Files 0 = .error (.indexOutOfRange 0 0) ∧
      buildIssue s q = .error (.indexOutOfRange 0 0)) := by
  constructor
  · intro h
    constructor
    · refine ⟨_, BuildReport_ok s summary ?_⟩
      intro q hq hnil
      have := h q hq
      rw [hnil] at this
      simp at this
    · intro q hq
      have hlen := h q hq
      refine ⟨⟨q.Files.get ⟨0, by omega⟩, fileAt_ok _ _ _ (by simp)⟩, ?_⟩
      refine ⟨q.Files.drop 1, by simp [filesFrom, hlen], ?_⟩
      intro i hi
      have hi2 : i + 1 < q.Files.length := by
        simp at hi
        omega
      exact ⟨q.Files.get ⟨i + 1, hi2⟩, fileAt_ok _ _ _ (by simp [hi2])⟩
  · intro q hq
    refine ⟨by rw [hq]; exact fileAt_nil 0, (buildIssue_no_files s q hq).2⟩

/-- Witness of C20: a summary of two queries with files is built, and a query
with no file panics on `Files[0]`. -/
theorem BuildReport_index_safety_witness :
    (∃ r : SonarQubeReport,
      BuildReport (NewSonarQubeRepory "1.0") { Queries := [exampleQuery, unlistedQuery] } =
        .ok r) ∧
    buildIssue (NewSonarQubeRepory "1.0") queryWithoutFiles = .error (.indexOutOfRange 0 0) :=
  ⟨((BuildReport_index_safety (NewSonarQubeRepory "1.0")
      { Queries := [exampleQuery, unlistedQuery] }).1 (by decide)).1,
   ((BuildReport_index_safety (NewSonarQubeRepory "1.0")
      { Queries := [exampleQuery, unlistedQuery] }).2 queryWithoutFiles rfl).2⟩

end SonarQube
